import Mathlib

/-!
Verification development for the shredtop data plane
(crates/shred-ingest: decoder.rs, source_metrics.rs, fan_in.rs, shred_race.rs).

The Rust code is shallowly embedded:
  * byte buffers are `List Nat` (each entry a byte value),
  * `u64`/`u32`/`u16` counters are `Nat`, `i64` values are `Int`
    (Rust `i64` division truncates toward zero, which is `Int.tdiv`),
  * `HashMap`/`DashMap` state is an association list with unique keys,
  * the Reed-Solomon library call and the bincode `Entry` deserializer are
    external crates, so they enter the model as oracle parameters; every
    theorem below holds for all oracles,
  * atomic counters are plain fields: the decoder owns its state and
    metrics updates commute, so the sequential model is faithful per thread.

Ghost fields (`outcomeCount`, `evicted`, `fecReconCount`, `wireDataCount`)
instrument the decoder for the invariant claims; they never influence the
computed state.
-/

namespace Shredtop

/-! ## Association-list maps (model of `HashMap` / `DashMap`) -/

/-- Lookup in an association list, first match (unique with nodup keys). -/
def alookup {κ α : Type} [DecidableEq κ] (m : List (κ × α)) (k : κ) : Option α :=
  match m with
  | [] => none
  | (k', v) :: r => if k' = k then some v else alookup r k

/-- Insert-or-replace, modelling `HashMap::insert` / the `entry` API. -/
def ainsert {κ α : Type} [DecidableEq κ] (m : List (κ × α)) (k : κ) (v : α) : List (κ × α) :=
  match m with
  | [] => [(k, v)]
  | (k', v') :: r => if k' = k then (k, v) :: r else (k', v') :: ainsert r k v

/-- Remove a key, modelling `HashMap::remove`. -/
def aremove {κ α : Type} [DecidableEq κ] (m : List (κ × α)) (k : κ) : List (κ × α) :=
  match m with
  | [] => []
  | (k', v') :: r => if k' = k then r else (k', v') :: aremove r k

theorem alookup_ainsert_self {κ α : Type} [DecidableEq κ] (m : List (κ × α)) (k : κ) (v : α) :
    alookup (ainsert m k v) k = some v := by
  induction m with
  | nil => simp [alookup, ainsert]
  | cons p r ih =>
    by_cases h : p.1 = k
    · simp [alookup, ainsert, h]
    · simp [alookup, ainsert, h, ih]

theorem alookup_ainsert_ne {κ α : Type} [DecidableEq κ] (m : List (κ × α)) (k k' : κ) (v : α)
    (h : k' ≠ k) : alookup (ainsert m k v) k' = alookup m k' := by
  have hkk : k ≠ k' := fun he => h he.symm
  induction m with
  | nil => simp [alookup, ainsert, hkk]
  | cons p r ih =>
    by_cases hp : p.1 = k
    · subst hp
      simp [alookup, ainsert, hkk]
    · simp [alookup, ainsert, hp, ih]

/-! ## Little-endian field readers (decoder.rs `from_le_bytes` calls) -/

def readU16LE (bytes : List Nat) (off : Nat) : Nat :=
  bytes.getD off 0 + 256 * bytes.getD (off + 1) 0

def readU32LE (bytes : List Nat) (off : Nat) : Nat :=
  readU16LE bytes off + 65536 * readU16LE bytes (off + 2)

def readU64LE (bytes : List Nat) (off : Nat) : Nat :=
  readU32LE bytes off + 4294967296 * readU32LE bytes (off + 4)

/-! ## decoder.rs — header offsets and pure parsers -/

def VARIANT_OFF : Nat := 64
def SLOT_OFF : Nat := 65
def INDEX_OFF : Nat := 73
def FEC_SET_INDEX_OFF : Nat := 79
def FLAGS_OFF : Nat := 85
def SIZE_OFF : Nat := 86
def DATA_OFF : Nat := 88
def LAST_IN_SLOT_FLAG : Nat := 0x01
def LEGACY_DATA_VARIANT : Nat := 0xa5

def CODE_NUM_DATA_OFF : Nat := 83
def CODE_NUM_CODE_OFF : Nat := 85
def CODE_POSITION_OFF : Nat := 87
def CODE_HDR_END : Nat := 89

/-- Agave Merkle shred fixed buffer size used as the RS symbol width. -/
def SHRED_RS_SIZE : Nat := 1228

/-- The `u32::MAX` sentinel used for an un-anchored `next_contiguous`. -/
def U32_MAX : Nat := 4294967295

/-- Model of `shred_slot_index`: parse slot, index and fec_set_index from
any shred type; `None` only if shorter than the common header. -/
def shred_slot_index (bytes : List Nat) : Option (Nat × Nat × Nat) :=
  if bytes.length < FEC_SET_INDEX_OFF + 4 then none
  else some (readU64LE bytes SLOT_OFF, readU32LE bytes INDEX_OFF,
    readU32LE bytes FEC_SET_INDEX_OFF)

/-- Parsed fields from a coding shred header (`CodingShredInfo`). -/
structure CodingShredInfo where
  num_data : Nat
  num_coding : Nat
  position : Nat
deriving DecidableEq

/-- Model of `parse_coding_header`. -/
def parse_coding_header (bytes : List Nat) : Option CodingShredInfo :=
  if bytes.length < CODE_HDR_END then none
  else
    let variant := bytes.getD VARIANT_OFF 0
    let high := Nat.land variant 0xF0
    if ¬ (high = 0x40 ∨ high = 0x50 ∨ high = 0x60 ∨ high = 0x70) then none
    else if variant = 0x5a then none
    else
      let num_data := readU16LE bytes CODE_NUM_DATA_OFF
      let num_coding := readU16LE bytes CODE_NUM_CODE_OFF
      let position := readU16LE bytes CODE_POSITION_OFF
      if num_data = 0 ∨ num_coding = 0 then none
      else some ⟨num_data, num_coding, position⟩

/-- Model of `parse_data_payload`: returns `(last_in_slot, entry bytes)` for
data shreds, `none` for code shreds or malformed payloads. -/
def parse_data_payload (bytes : List Nat) : Option (Bool × List Nat) :=
  if bytes.length < DATA_OFF then none
  else
    let variant := bytes.getD VARIANT_OFF 0
    let high := Nat.land variant 0xF0
    if ¬ (variant = LEGACY_DATA_VARIANT ∨
        high = 0x80 ∨ high = 0x90 ∨ high = 0xa0 ∨ high = 0xb0) then none
    else
      let last_in_slot := decide (Nat.land (bytes.getD FLAGS_OFF 0) LAST_IN_SLOT_FLAG ≠ 0)
      let size := readU16LE bytes SIZE_OFF
      if size < DATA_OFF ∨ size > bytes.length then none
      else some (last_in_slot, (bytes.drop DATA_OFF).take (size - DATA_OFF))

/-- Model of `RawShred` (receiver.rs): payload bytes plus receive timestamp. -/
structure RawShred where
  data : List Nat
  recv_timestamp_ns : Nat
deriving DecidableEq

/-- Pad or truncate a raw shred buffer to the RS symbol width
(`buf.resize(SHRED_RS_SIZE, 0)`). -/
def padShred (data : List Nat) : List Nat :=
  data.take SHRED_RS_SIZE ++ List.replicate (SHRED_RS_SIZE - data.length) 0

/-! ## source_metrics.rs — lead-time reservoir and per-source metrics -/

def RESERVOIR_CAP : Nat := 4096

/-- Model of `LeadTimeReservoir`: `buf: [i64; RESERVOIR_CAP]`, valid prefix
`len`, next write index `pos`. -/
structure LeadTimeReservoir where
  buf : List Int
  len : Nat
  pos : Nat
deriving DecidableEq

namespace LeadTimeReservoir

def new : LeadTimeReservoir :=
  { buf := List.replicate RESERVOIR_CAP 0, len := 0, pos := 0 }

/-- Model of `LeadTimeReservoir::push`. -/
def push (r : LeadTimeReservoir) (v : Int) : LeadTimeReservoir :=
  { buf := r.buf.set r.pos v
    pos := (r.pos + 1) % RESERVOIR_CAP
    len := if r.len < RESERVOIR_CAP then r.len + 1 else r.len }

/-- Model of `LeadTimeReservoir::percentiles`: sort a copy of the active
prefix ascending, index at `(n * p / 100).min(n - 1)` for p ∈ {50, 95, 99}. -/
def percentiles (r : LeadTimeReservoir) : Option (Int × Int × Int) :=
  if r.len = 0 then none
  else
    let sorted := (r.buf.take r.len).mergeSort (fun a b => a ≤ b)
    let n := sorted.length
    some (sorted.getD (min (n * 50 / 100) (n - 1)) 0,
          sorted.getD (min (n * 95 / 100) (n - 1)) 0,
          sorted.getD (min (n * 99 / 100) (n - 1)) 0)

end LeadTimeReservoir

/-- Model of `SourceMetrics` (the atomic counters as plain fields; the
`slot_log` rolling log is not referenced by any claim and is omitted). -/
structure SourceMetrics where
  name : String
  is_rpc : Bool
  shreds_received : Nat
  bytes_received : Nat
  shreds_dropped : Nat
  slots_attempted : Nat
  slots_complete : Nat
  slots_partial : Nat
  slots_dropped : Nat
  coverage_shreds_seen : Nat
  coverage_shreds_expected : Nat
  fec_recovered_shreds : Nat
  txs_decoded : Nat
  txs_emitted : Nat
  txs_first : Nat
  txs_duplicate : Nat
  lead_time_count : Nat
  lead_wins : Nat
  lead_time_sum_us : Int
  lead_time_reservoir : LeadTimeReservoir
deriving DecidableEq

namespace SourceMetrics

/-- Model of `SourceMetrics::new`. -/
def new (name : String) (is_rpc : Bool) : SourceMetrics :=
  { name := name, is_rpc := is_rpc
    shreds_received := 0, bytes_received := 0, shreds_dropped := 0
    slots_attempted := 0, slots_complete := 0, slots_partial := 0, slots_dropped := 0
    coverage_shreds_seen := 0, coverage_shreds_expected := 0
    fec_recovered_shreds := 0
    txs_decoded := 0, txs_emitted := 0, txs_first := 0, txs_duplicate := 0
    lead_time_count := 0, lead_wins := 0, lead_time_sum_us := 0
    lead_time_reservoir := LeadTimeReservoir.new }

def LEAD_TIME_MAX_US : Int := 2000000

def LEAD_TIME_MIN_US : Int := -500000

/-- Model of `SourceMetrics::record_lead_time_us`. -/
def record_lead_time_us (m : SourceMetrics) (us : Int) : SourceMetrics :=
  if us > LEAD_TIME_MAX_US ∨ us < LEAD_TIME_MIN_US then m
  else
    { m with
      lead_time_count := m.lead_time_count + 1
      lead_wins := if us > 0 then m.lead_wins + 1 else m.lead_wins
      lead_time_sum_us := m.lead_time_sum_us + us
      lead_time_reservoir := m.lead_time_reservoir.push us }

end SourceMetrics

/-- Model of the lead-time-percentile part of `SourceMetrics::snapshot`:
`percentiles()` is destructured with `map_or((None, None, None), ...)`. -/
def snapshotLeadPercentiles (m : SourceMetrics) :
    Option Int × Option Int × Option Int :=
  match m.lead_time_reservoir.percentiles with
  | none => (none, none, none)
  | some (p50, p95, p99) => (some p50, some p95, some p99)

/-- Push the same value `n` times (the loop of `test_reservoir_wraps`). -/
def pushN (n : Nat) (v : Int) (r : LeadTimeReservoir) : LeadTimeReservoir :=
  match n with
  | 0 => r
  | k + 1 => (pushN k v r).push v

/-! ### Reservoir lemmas -/

theorem getD_replicate_of_lt {v : Int} {i n : Nat} (h : i < n) :
    (List.replicate n v).getD i 0 = v := by
  rw [List.getD_eq_getElem (List.replicate n v) 0 (by simpa using h)]
  exact List.getElem_replicate v _

theorem getD_replicate_gen {α : Type} (v d : α) {i n : Nat} (h : i < n) :
    (List.replicate n v).getD i d = v := by
  rw [List.getD_eq_getElem _ d (by simpa using h)]
  exact List.getElem_replicate v _

theorem getD_set_self {α : Type} (l : List α) (i : Nat) (v d : α) (h : i < l.length) :
    (l.set i v).getD i d = v := by
  rw [List.getD_eq_getElem _ d (by simpa using h), List.getElem_set]
  simp

theorem getD_set_ne {α : Type} (l : List α) (i j : Nat) (v d : α) (h : i ≠ j) :
    (l.set i v).getD j d = l.getD j d := by
  by_cases hj : j < l.length
  · rw [List.getD_eq_getElem _ d (by simpa using hj), List.getElem_set, if_neg h,
      List.getD_eq_getElem _ d hj]
  · rw [List.getD_eq_default _ d (by rw [List.length_set]; omega),
      List.getD_eq_default _ d (by omega)]

theorem push_len (r : LeadTimeReservoir) (v : Int) :
    (r.push v).len = if r.len < RESERVOIR_CAP then r.len + 1 else r.len := rfl

theorem push_pos (r : LeadTimeReservoir) (v : Int) :
    (r.push v).pos = (r.pos + 1) % RESERVOIR_CAP := rfl

theorem push_buf (r : LeadTimeReservoir) (v : Int) :
    (r.push v).buf = r.buf.set r.pos v := rfl

theorem pushN_new_spec (v : Int) (k : Nat) :
    (pushN k v LeadTimeReservoir.new).buf.length = RESERVOIR_CAP ∧
    (pushN k v LeadTimeReservoir.new).len = min k RESERVOIR_CAP ∧
    (pushN k v LeadTimeReservoir.new).pos = k % RESERVOIR_CAP ∧
    ∀ i, i < min k RESERVOIR_CAP →
      (pushN k v LeadTimeReservoir.new).buf.getD i 0 = v := by
  induction k with
  | zero =>
    refine ⟨by simp [pushN, LeadTimeReservoir.new], by simp [pushN, LeadTimeReservoir.new],
      by simp [pushN, LeadTimeReservoir.new], ?_⟩
    intro i hi
    simp at hi
  | succ k ih =>
    obtain ⟨hlen, hl, hp, hv⟩ := ih
    have hstep : pushN (k + 1) v LeadTimeReservoir.new
        = (pushN k v LeadTimeReservoir.new).push v := rfl
    refine ⟨?_, ?_, ?_, ?_⟩
    · rw [hstep, push_buf, List.length_set, hlen]
    · rw [hstep, push_len, hl]
      rcases Nat.lt_or_ge k RESERVOIR_CAP with h | h
      · rw [if_pos (by omega)]
        omega
      · rw [if_neg (by omega)]
        omega
    · rw [hstep, push_pos, hp]
      simp only [RESERVOIR_CAP]
      omega
    · intro i hi
      rw [hstep, push_buf]
      have hilt : i < (pushN k v LeadTimeReservoir.new).buf.length := by
        rw [hlen]; omega
      have hset : i < ((pushN k v LeadTimeReservoir.new).buf.set
          (pushN k v LeadTimeReservoir.new).pos v).length := by
        simpa using hilt
      rw [List.getD_eq_getElem _ 0 hset, List.getElem_set]
      by_cases hpos : (pushN k v LeadTimeReservoir.new).pos = i
      · rw [if_pos hpos]
      · rw [if_neg hpos, ← List.getD_eq_getElem _ 0 hilt]
        apply hv
        rcases Nat.lt_or_ge k RESERVOIR_CAP with h | h
        · have hpk : (pushN k v LeadTimeReservoir.new).pos = k := by
            rw [hp]
            exact Nat.mod_eq_of_lt h
          have hik : i ≠ k := fun he => hpos (by rw [hpk, he])
          omega
        · omega

theorem percentiles_pushN_const (v : Int) :
    (pushN (RESERVOIR_CAP + 100) v LeadTimeReservoir.new).percentiles
      = some (v, v, v) := by
  obtain ⟨hlen, hl, _, hv⟩ := pushN_new_spec v (RESERVOIR_CAP + 100)
  set r := pushN (RESERVOIR_CAP + 100) v LeadTimeReservoir.new with hr
  have hlcap : r.len = RESERVOIR_CAP := by rw [hl]; decide
  have htake : r.buf.take r.len = r.buf := by
    rw [hlcap, ← hlen, List.take_length]
  have hbuf : r.buf = List.replicate RESERVOIR_CAP v := by
    rw [List.eq_replicate_iff]
    refine ⟨hlen, ?_⟩
    intro b hb
    obtain ⟨i, hi, rfl⟩ := List.mem_iff_getElem.mp hb
    rw [← List.getD_eq_getElem _ 0 hi]
    exact hv i (by rw [hlen] at hi; omega)
  have hperm := List.mergeSort_perm (r.buf.take r.len) (fun a b => decide (a ≤ b))
  have hsorted : (r.buf.take r.len).mergeSort (fun a b => decide (a ≤ b))
      = List.replicate RESERVOIR_CAP v := by
    rw [List.eq_replicate_iff]
    constructor
    · rw [hperm.length_eq, htake, hlen]
    · intro b hb
      have := hperm.mem_iff.mp hb
      rw [htake, hbuf] at this
      exact (List.mem_replicate.mp this).2
  rw [LeadTimeReservoir.percentiles, if_neg (by rw [hlcap]; decide)]
  simp only [hsorted, List.length_replicate]
  rw [getD_replicate_of_lt (by decide), getD_replicate_of_lt (by decide),
    getD_replicate_of_lt (by decide)]

/-! ### Claim theorems for source_metrics.rs -/

/-- C5: `record_lead_time_us` discards samples outside
`[-500000, 2000000]` µs untouched (all counters and the reservoir keep
their values), and otherwise increments `lead_time_count`, increments
`lead_wins` exactly when the sample is positive, adds the sample to
`lead_time_sum_us`, and appends it to the reservoir. -/
theorem C5_record_lead_time_us (m : SourceMetrics) (us : Int) :
    ((us < SourceMetrics.LEAD_TIME_MIN_US ∨ SourceMetrics.LEAD_TIME_MAX_US < us) →
      SourceMetrics.record_lead_time_us m us = m) ∧
    ((SourceMetrics.LEAD_TIME_MIN_US ≤ us ∧ us ≤ SourceMetrics.LEAD_TIME_MAX_US) →
      (SourceMetrics.record_lead_time_us m us).lead_time_count = m.lead_time_count + 1 ∧
      (SourceMetrics.record_lead_time_us m us).lead_wins
        = (if 0 < us then m.lead_wins + 1 else m.lead_wins) ∧
      (SourceMetrics.record_lead_time_us m us).lead_time_sum_us = m.lead_time_sum_us + us ∧
      (SourceMetrics.record_lead_time_us m us).lead_time_reservoir
        = m.lead_time_reservoir.push us) := by
  constructor
  · intro h
    rw [SourceMetrics.record_lead_time_us, if_pos]
    exact h.elim (fun h1 => Or.inr h1) (fun h2 => Or.inl h2)
  · intro h
    rw [SourceMetrics.record_lead_time_us, if_neg (by push_neg; omega)]
    exact ⟨rfl, rfl, rfl, rfl⟩

/-- Witness for C5 at concrete inputs: 2000001 µs is discarded, 100 µs is
counted. -/
theorem C5_record_lead_time_us_witness :
    SourceMetrics.record_lead_time_us (SourceMetrics.new "s" false) 2000001
      = SourceMetrics.new "s" false ∧
    (SourceMetrics.record_lead_time_us (SourceMetrics.new "s" false) 100).lead_time_count
      = (SourceMetrics.new "s" false).lead_time_count + 1 :=
  ⟨(C5_record_lead_time_us (SourceMetrics.new "s" false) 2000001).1 (by decide),
   ((C5_record_lead_time_us (SourceMetrics.new "s" false) 100).2 (by decide)).1⟩

/-- C7: the snapshot reports all three lead percentiles absent exactly when
the reservoir is empty, and after pushing `RESERVOIR_CAP + 100` copies of
one value `v` the sorted-and-indexed percentiles satisfy p50 = p95 = p99 = v. -/
theorem C7_percentiles_snapshot (v : Int) :
    (∀ m : SourceMetrics,
      snapshotLeadPercentiles m = (none, none, none) ↔ m.lead_time_reservoir.len = 0) ∧
    (pushN (RESERVOIR_CAP + 100) v LeadTimeReservoir.new).percentiles = some (v, v, v) := by
  constructor
  · intro m
    rw [snapshotLeadPercentiles, LeadTimeReservoir.percentiles]
    by_cases h : m.lead_time_reservoir.len = 0
    · simp [h]
    · simp [h]
  · exact percentiles_pushN_const v

/-! ## decoder.rs — per-slot state, FEC sets and the decode loop

The bincode `Entry` deserializer and the `reed_solomon_erasure` library are
external crates.  They are oracle parameters of the model:

  * `DeOracle` stands for one `bincode::deserialize_from::<_, Entry>` call
    on a byte prefix, returning the entry's transaction count and the number
    of bytes the cursor consumed, or `none` on failure;
  * `RsOracle` stands for `ReedSolomon::new(..).reconstruct(..)`, taking
    `num_data`, `num_coding` and the partially-filled shard vector and
    returning the filled vector, or `none` when the constructor or the
    reconstruction fails.

Every theorem about the decoder quantifies over both oracles. -/

def DeOracle : Type := List Nat → Option (Nat × Nat)

def RsOracle : Type := Nat → Nat → List (Option (List Nat)) → Option (List (Option (List Nat)))

/-- Model of `SlotState`. -/
structure SlotState where
  data_payloads : List (Nat × List Nat)
  next_contiguous : Nat
  entry_buf : List Nat
  consumed : Nat
  max_index : Nat
  last_seen : Bool
  last_touch_ns : Nat
  txs_decoded : Nat
  counted : Bool
  boundary_scanned : Bool
deriving DecidableEq

namespace SlotState

/-- Model of `SlotState::new`. -/
def new (now : Nat) : SlotState :=
  { data_payloads := [], next_contiguous := U32_MAX, entry_buf := [], consumed := 0
    max_index := 0, last_seen := false, last_touch_ns := now, txs_decoded := 0
    counted := false, boundary_scanned := false }

/-- Model of `SlotState::set_first_index`. -/
def set_first_index (st : SlotState) (idx : Nat) : SlotState :=
  if st.next_contiguous = U32_MAX then
    { st with next_contiguous := idx, boundary_scanned := idx == 0 }
  else st

/-- The `while let Some(..) = map.remove(&next_contiguous)` loop of
`flush_contiguous`, with fuel.  Each successful iteration removes one map
entry, so `data_payloads.length` steps of fuel exactly exhaust the loop.
(`next_contiguous` is a `u32` in Rust; indices parsed from the wire are
below `2^32`, so the `Nat` increment agrees with the source on all
reachable states.) -/
def flushLoop : Nat → SlotState → SlotState
  | 0, st => st
  | fuel + 1, st =>
    match alookup st.data_payloads st.next_contiguous with
    | some payload =>
      flushLoop fuel
        { st with
          data_payloads := aremove st.data_payloads st.next_contiguous
          entry_buf := st.entry_buf ++ payload
          next_contiguous := st.next_contiguous + 1 }
    | none => st

/-- Model of `SlotState::flush_contiguous`. -/
def flush_contiguous (st : SlotState) : SlotState :=
  flushLoop st.data_payloads.length st

/-- Phase 1 of `try_deserialize`: scan for the first Entry boundary.  For
each offset, peek the u64 transaction count at `off + 40`, reject counts
above 512, then trial-deserialize one entry. -/
def scanBoundary (de : DeOracle) (buf : List Nat) : Option Nat :=
  (List.range (buf.length - 47)).find? fun off =>
    decide (readU64LE buf (off + 40) ≤ 512) && (de (buf.drop off)).isSome

/-- Phase 2 of `try_deserialize`: stream-deserialize complete entries,
accumulating the transaction count and the cursor position.  A failed
attempt rewinds and stops. -/
def streamEntries (de : DeOracle) : Nat → List Nat → Nat × Nat
  | 0, _ => (0, 0)
  | fuel + 1, buf =>
    match de buf with
    | none => (0, 0)
    | some (txCount, used) =>
      let rest := streamEntries de fuel (buf.drop used)
      (txCount + rest.1, used + rest.2)

/-- Phase 2 wrapper: deserialize from `entry_buf[consumed..]` and advance
`consumed` by the cursor position. -/
def streamPhase (de : DeOracle) (st : SlotState) : SlotState × Nat :=
  let buf := st.entry_buf.drop st.consumed
  if buf.isEmpty then (st, 0)
  else
    let r := streamEntries de (buf.length + 1) buf
    ({ st with consumed := st.consumed + r.2 }, r.1)

/-- Model of `SlotState::try_deserialize`, returning the updated state and
the number of extracted transactions (`txs.len()`). -/
def try_deserialize (de : DeOracle) (st : SlotState) : SlotState × Nat :=
  if !st.boundary_scanned then
    let buf := st.entry_buf.drop st.consumed
    if buf.length < 48 then (st, 0)
    else
      match scanBoundary de buf with
      | some off =>
        streamPhase de { st with consumed := st.consumed + off, boundary_scanned := true }
      | none => (st, 0)
  else streamPhase de st

end SlotState

/-- Model of `FecSet`. -/
structure FecSet where
  num_data : Nat
  num_coding : Nat
  shards : List (Nat × List Nat)
  recovered : Bool
deriving DecidableEq

namespace FecSet

/-- Model of `FecSet::new`. -/
def new (num_data num_coding : Nat) : FecSet :=
  { num_data := num_data, num_coding := num_coding, shards := [], recovered := false }

/-- Model of `FecSet::ready_to_recover`. -/
def ready_to_recover (f : FecSet) : Bool :=
  !f.recovered && decide (f.num_data ≤ f.shards.length)

/-- Model of `FecSet::reconstruct`: always sets `recovered`, then either
finds no missing data positions, fails in the RS library (oracle `none`),
or returns the recovered data shards paired with their positions. -/
def reconstruct (rs : RsOracle) (f : FecSet) : FecSet × List (Nat × List Nat) :=
  let f' := { f with recovered := true }
  let total := f.num_data + f.num_coding
  if total = 0 ∨ f.num_data = 0 ∨ f.num_coding = 0 then (f', [])
  else
    let shard_opts := (List.range total).map fun i => alookup f.shards i
    let missing_data := (List.range f.num_data).filter fun i => (alookup f.shards i).isNone
    if missing_data = [] then (f', [])
    else
      match rs f.num_data f.num_coding shard_opts with
      | none => (f', [])
      | some opts =>
        (f', missing_data.filterMap fun idx => (opts.getD idx none).map fun s => (idx, s))

end FecSet

def MAX_ACTIVE_SLOTS : Nat := 64
def SLOT_EXPIRY_DISTANCE : Nat := 32

/-- Decoder-loop state (`ShredDecoder::run` locals), plus ghost
instrumentation.  The ghost fields record, per slot, how many increments of
the three outcome counters were attributed to it (`outcomeCount`), whether
the slot was ever evicted by expiration (`evicted`), per FEC-set key how
many times `reconstruct` was invoked (`fecReconCount`), and how many wire
data shreds were accepted (`wireDataCount`).  They never feed back into the
computation. -/
structure Dec where
  slots : List (Nat × SlotState)
  fec_sets : List ((Nat × Nat) × FecSet)
  highest_slot : Nat
  metrics : SourceMetrics
  outcomeCount : Nat → Nat
  evicted : Nat → Bool
  fecReconCount : Nat × Nat → Nat
  wireDataCount : Nat

/-- Initial decoder state. -/
def Dec.init (m : SourceMetrics) : Dec :=
  { slots := [], fec_sets := [], highest_slot := 0, metrics := m
    outcomeCount := fun _ => 0, evicted := fun _ => false
    fecReconCount := fun _ => 0, wireDataCount := 0 }

/-- The metric bump of the `slots.retain` body for an evicted slot: partial
when it decoded transactions, dropped otherwise, nothing when already
counted. -/
def expireMetricsUpdate (m : SourceMetrics) (st : SlotState) : SourceMetrics :=
  if st.counted then m
  else if st.txs_decoded > 0 then { m with slots_partial := m.slots_partial + 1 }
  else { m with slots_dropped := m.slots_dropped + 1 }

/-- The `slots.retain` body executed when `highest_slot` advances: keep
young slots; classify evicted uncounted slots, bumping the matching counter
and the ghost maps. -/
def expireSlots (highest : Nat) (m : SourceMetrics) (outc : Nat → Nat) (ev : Nat → Bool) :
    List (Nat × SlotState) →
      List (Nat × SlotState) × SourceMetrics × (Nat → Nat) × (Nat → Bool)
  | [] => ([], m, outc, ev)
  | (s, st) :: rest =>
    if s + SLOT_EXPIRY_DISTANCE ≥ highest then
      let r := expireSlots highest m outc ev rest
      ((s, st) :: r.1, r.2)
    else
      expireSlots highest (expireMetricsUpdate m st)
        (if st.counted then outc else fun x => if x = s then outc x + 1 else outc x)
        (fun x => if x = s then true else ev x) rest

/-- The `if slot > highest_slot` block: advance `highest_slot`, evict
expired slot states (classifying them) and expired FEC sets. -/
def advanceHighest (slot : Nat) (D : Dec) : Dec :=
  if slot > D.highest_slot then
    let r := expireSlots slot D.metrics D.outcomeCount D.evicted D.slots
    { D with
      highest_slot := slot
      slots := r.1
      metrics := r.2.1
      outcomeCount := r.2.2.1
      evicted := r.2.2.2
      fec_sets := D.fec_sets.filter fun q => decide (q.1.1 + SLOT_EXPIRY_DISTANCE ≥ slot) }
  else D

/-- The `slots.entry(slot).or_insert_with(..)` call: counts
`slots_attempted` when the slot state is created. -/
def getOrCreateSlot (m : SourceMetrics) (slots : List (Nat × SlotState)) (slot now : Nat) :
    SlotState × SourceMetrics :=
  match alookup slots slot with
  | some st => (st, m)
  | none => (SlotState.new now, { m with slots_attempted := m.slots_attempted + 1 })

/-- The recovered-shard insertion loop (decoder.rs lines 478–497): skip
indices already present, re-parse each shard through the data-shred path,
update anchor / max-index / last-seen, and count insertions. -/
def insertRecoveredShreds (st : SlotState) (fec_set_index : Nat) :
    List (Nat × List Nat) → SlotState × Nat
  | [] => (st, 0)
  | (data_shard_idx, shard_bytes) :: rest =>
    let global_idx := min (fec_set_index + data_shard_idx) U32_MAX
    if (alookup st.data_payloads global_idx).isSome then
      insertRecoveredShreds st fec_set_index rest
    else
      match parse_data_payload shard_bytes with
      | some (last_in_slot, payload) =>
        let st1 := st.set_first_index global_idx
        let st2 := if global_idx > st1.max_index then { st1 with max_index := global_idx } else st1
        let st3 := if last_in_slot then { st2 with last_seen := true } else st2
        let st4 := { st3 with data_payloads := ainsert st3.data_payloads global_idx payload }
        let r := insertRecoveredShreds st4 fec_set_index rest
        (r.1, r.2 + 1)
      | none => insertRecoveredShreds st fec_set_index rest

/-- The slot-complete check (decoder.rs lines 509–515 and 584–587): when
the last shred was seen, the contiguous cursor passed the max index and the
slot is not yet counted, bump `slots_complete` and latch `counted`. -/
def completeCheck (st : SlotState) (m : SourceMetrics) (outc : Nat → Nat) (slot : Nat) :
    SlotState × SourceMetrics × (Nat → Nat) :=
  if st.last_seen && decide (st.max_index < st.next_contiguous) && !st.counted then
    ({ st with counted := true },
     { m with slots_complete := m.slots_complete + 1 },
     fun x => if x = slot then outc x + 1 else outc x)
  else (st, m, outc)

/-- The wire data-shred slot update (decoder.rs lines 572–582): anchor,
max-index, last-in-slot, `HashMap::insert` of the payload, then
`flush_contiguous`. -/
def dataShredUpdate (st : SlotState) (shred_index : Nat) (last_in_slot : Bool)
    (payload : List Nat) : SlotState :=
  let st1 := st.set_first_index shred_index
  let st2 := if shred_index > st1.max_index then { st1 with max_index := shred_index } else st1
  let st3 := if last_in_slot then { st2 with last_seen := true } else st2
  let st4 := { st3 with data_payloads := ainsert st3.data_payloads shred_index payload }
  st4.flush_contiguous

/-- The coding-shred path of the decode loop below the `or_insert_with` of
the FEC set (decoder.rs lines 458–543): shape check, shard `or_insert`,
one-shot reconstruction and the recovered-shred slot pipeline.
`fecSets1`, `metrics1` and `fec` are the map, metrics and FEC-set value
produced by the `entry(..).or_insert_with(..)` step. -/
def codingStepRest (rs : RsOracle) (de : DeOracle) (D : Dec) (now : Nat) (raw : RawShred)
    (slot fec_set_index num_data num_coding shard_pos : Nat)
    (fecSets1 : List ((Nat × Nat) × FecSet)) (metrics1 : SourceMetrics) (fec : FecSet) : Dec :=
  if ¬ (fec.num_data = num_data ∧ fec.num_coding = num_coding) then
    { D with fec_sets := fecSets1, metrics := metrics1 }
  else
    let fec1 :=
      if (alookup fec.shards shard_pos).isSome then fec
      else { fec with shards := ainsert fec.shards shard_pos (padShred raw.data) }
    if fec1.ready_to_recover then
      let rec_result := FecSet.reconstruct rs fec1
      let fecSets2 := ainsert fecSets1 (slot, fec_set_index) rec_result.1
      let ghost := fun k => if k = (slot, fec_set_index) then D.fecReconCount k + 1
        else D.fecReconCount k
      if rec_result.2 = [] then
        { D with fec_sets := fecSets2, metrics := metrics1, fecReconCount := ghost }
      else
        let sl := getOrCreateSlot metrics1 D.slots slot now
        let slot0 := { sl.1 with last_touch_ns := now }
        let ins := insertRecoveredShreds slot0 fec_set_index rec_result.2
        if ins.2 > 0 then
          let metrics3 :=
            { sl.2 with
              fec_recovered_shreds := sl.2.fec_recovered_shreds + ins.2
              coverage_shreds_seen := sl.2.coverage_shreds_seen + ins.2 }
          let flushed := ins.1.flush_contiguous
          let cc := completeCheck flushed metrics3 D.outcomeCount slot
          let des := SlotState.try_deserialize de cc.1
          let final :=
            if des.2 > 0 then
              ({ des.1 with txs_decoded := des.1.txs_decoded + des.2 },
               { cc.2.1 with txs_decoded := cc.2.1.txs_decoded + des.2 })
            else (des.1, cc.2.1)
          { D with
            slots := ainsert D.slots slot final.1
            fec_sets := fecSets2
            metrics := final.2
            outcomeCount := cc.2.2
            fecReconCount := ghost }
        else
          { D with
            slots := ainsert D.slots slot ins.1
            fec_sets := fecSets2
            metrics := sl.2
            fecReconCount := ghost }
    else
      { D with fec_sets := ainsert fecSets1 (slot, fec_set_index) fec1, metrics := metrics1 }

/-- The coding-shred path of the decode loop (decoder.rs lines 435–544). -/
def codingStep (rs : RsOracle) (de : DeOracle) (D : Dec) (now : Nat) (raw : RawShred)
    (slot fec_set_index : Nat) (ci : CodingShredInfo) : Dec :=
  let num_data := ci.num_data
  let num_coding := ci.num_coding
  let code_position := ci.position
  let shard_pos := num_data + code_position
  if code_position ≥ num_coding then D
  else
    let found := alookup D.fec_sets (slot, fec_set_index)
    let fecSets1 :=
      match found with
      | some _ => D.fec_sets
      | none => ainsert D.fec_sets (slot, fec_set_index) (FecSet.new num_data num_coding)
    let metrics1 :=
      match found with
      | some _ => D.metrics
      | none =>
        { D.metrics with
          coverage_shreds_expected := D.metrics.coverage_shreds_expected + num_data }
    let fec :=
      match found with
      | some f => f
      | none => FecSet.new num_data num_coding
    codingStepRest rs de D now raw slot fec_set_index num_data num_coding shard_pos
      fecSets1 metrics1 fec

/-- The data-shred path of the decode loop (decoder.rs lines 546–608). -/
def dataStep (de : DeOracle) (D : Dec) (now : Nat) (raw : RawShred)
    (slot shred_index fec_set_index : Nat) : Dec :=
  match parse_data_payload raw.data with
  | none => D
  | some (last_in_slot, payload) =>
    let metrics1 :=
      { D.metrics with coverage_shreds_seen := D.metrics.coverage_shreds_seen + 1 }
    let sl := getOrCreateSlot metrics1 D.slots slot now
    let st0 := { sl.1 with last_touch_ns := now }
    let fecSets1 :=
      if shred_index ≥ fec_set_index then
        match alookup D.fec_sets (slot, fec_set_index) with
        | some fec =>
          let shard_pos := shred_index - fec_set_index
          if (alookup fec.shards shard_pos).isSome then D.fec_sets
          else ainsert D.fec_sets (slot, fec_set_index)
            { fec with shards := ainsert fec.shards shard_pos (padShred raw.data) }
        | none => D.fec_sets
      else D.fec_sets
    let st1 := dataShredUpdate st0 shred_index last_in_slot payload
    let cc := completeCheck st1 sl.2 D.outcomeCount slot
    let des := SlotState.try_deserialize de cc.1
    let final :=
      if des.2 > 0 then
        ({ des.1 with txs_decoded := des.1.txs_decoded + des.2 },
         { cc.2.1 with txs_decoded := cc.2.1.txs_decoded + des.2 })
      else (des.1, cc.2.1)
    { D with
      slots := ainsert D.slots slot final.1
      fec_sets := fecSets1
      metrics := final.2
      outcomeCount := cc.2.2
      wireDataCount := D.wireDataCount + 1 }

/-- One iteration of the `for raw_shred in &self.rx` loop of
`ShredDecoder::run`.  `now` stands for the `metrics::now_ns()` sample taken
in that iteration. -/
def decoderStep (rs : RsOracle) (de : DeOracle) (D : Dec) (input : Nat × RawShred) : Dec :=
  let now := input.1
  let raw := input.2
  match shred_slot_index raw.data with
  | none => D
  | some (slot, shred_index, fec_set_index) =>
    let D1 := advanceHighest slot D
    if D1.highest_slot - slot > SLOT_EXPIRY_DISTANCE then D1
    else
      match parse_coding_header raw.data with
      | some ci => codingStep rs de D1 now raw slot fec_set_index ci
      | none => dataStep de D1 now raw slot shred_index fec_set_index

/-- Run the decoder loop over a list of timestamped raw shreds. -/
def decoderRun (rs : RsOracle) (de : DeOracle) (inputs : List (Nat × RawShred)) (D : Dec) : Dec :=
  inputs.foldl (decoderStep rs de) D

/-! ## fan_in.rs — dedup-map duplicate handling (relay thread, Occupied arm)

A `FirstArrival` stores the winning source's receive timestamp, its
RPC/shred tier, and (here, by an identifier) the handle to its metrics. -/

structure FirstArrival where
  recv_ns : Nat
  is_rpc : Bool
  /-- Stands for the `Arc<SourceMetrics>` handle of the winning source. -/
  metricsId : Nat
deriving DecidableEq

/-- Model of the `Entry::Occupied` arm of the relay loop in
`FanInSource::start` (fan_in.rs lines 271–306), after `txs_duplicate` was
bumped: computes which metrics handle records which lead-time sample, or
`none` when the sample is skipped (rpc vs rpc).  Rust `i64` division
truncates toward zero, hence `Int.tdiv`. -/
def dupLeadAction (first : FirstArrival) (curIsRpc : Bool) (curRecvNs : Nat)
    (curMetricsId : Nat) : Option (Nat × Int) :=
  let pair : Option (Nat × Nat) :=
    if !first.is_rpc && curIsRpc then some (first.recv_ns, curRecvNs)
    else if first.is_rpc && !curIsRpc then some (curRecvNs, first.recv_ns)
    else if !curIsRpc then some (curRecvNs, first.recv_ns)
    else none
  match pair with
  | none => none
  | some (shred_ns, rpc_ns) =>
    let lead_us := Int.tdiv ((rpc_ns : Int) - (shred_ns : Int)) 1000
    if !first.is_rpc then some (first.metricsId, lead_us)
    else some (curMetricsId, lead_us)

/-! ### Claim theorems for fan_in.rs -/

/-- C1 counterexample: first arrival shred-tier at 1 000 000 ns (metrics
handle 0), second arrival shred-tier at 2 000 000 ns (metrics handle 1).
The claim predicts the sample `second_ts − first_ts = +1000` µs recorded on
the second source (handle 1); the code records
`(first_ts − second_ts)/1000 = −1000` µs on the first source (handle 0). -/
theorem C1_shred_shred_counterexample :
    dupLeadAction ⟨1000000, false, 0⟩ false 2000000 1 = some (0, -1000) ∧
    dupLeadAction ⟨1000000, false, 0⟩ false 2000000 1 ≠ some (1, 1000) := by
  constructor
  · rfl
  · intro h
    simp [dupLeadAction] at h

/-- C1 (amended): the duplicate-arrival case table implemented by the relay
loop.  Rows shred→rpc, rpc→shred and rpc→rpc agree with the spec table; in
the shred→shred row the sample is `(first_ts − second_ts)/1000` µs and it
is recorded on the first arrival's source, not the second. -/
theorem C1_dup_lead_case_table (f : FirstArrival) (cRpc : Bool) (cNs cId : Nat) :
    dupLeadAction f cRpc cNs cId =
      match f.is_rpc, cRpc with
      | false, true => some (f.metricsId, Int.tdiv ((cNs : Int) - (f.recv_ns : Int)) 1000)
      | true, false => some (cId, Int.tdiv ((f.recv_ns : Int) - (cNs : Int)) 1000)
      | false, false => some (f.metricsId, Int.tdiv ((f.recv_ns : Int) - (cNs : Int)) 1000)
      | true, true => none := by
  rcases hf : f.is_rpc with _ | _ <;> rcases hc : cRpc with _ | _ <;>
    simp [dupLeadAction, hf, hc]

/-! ## shred_race.rs — shred-to-shred race tracker -/

namespace ShredRace

def RESERVOIR_CAP : Nat := 4096

/-- Model of `RaceReservoir` (shred_race.rs): same circular buffer shape as
the lead-time reservoir. -/
structure RaceReservoir where
  buf : List Int
  len : Nat
  pos : Nat
deriving DecidableEq

def RaceReservoir.new : RaceReservoir :=
  { buf := List.replicate RESERVOIR_CAP 0, len := 0, pos := 0 }

def RaceReservoir.push (r : RaceReservoir) (v : Int) : RaceReservoir :=
  { buf := r.buf.set r.pos v
    pos := (r.pos + 1) % RESERVOIR_CAP
    len := if r.len < RESERVOIR_CAP then r.len + 1 else r.len }

/-- Model of `ShredArrival`, sent from the receiver hot loop. -/
structure ShredArrival where
  source : String
  slot : Nat
  idx : Nat
  recv_ns : Nat
deriving DecidableEq

/-- Model of `ShredFirstArrival`, the value of the first-arrival map. -/
structure ShredFirstArrival where
  recv_ns : Nat
  source : String
  inserted_ns : Nat
deriving DecidableEq

/-- Model of `ShredPairMetrics`. -/
structure ShredPairMetrics where
  source_a : String
  source_b : String
  a_wins : Nat
  b_wins : Nat
  lead_sum_us : Int
  lead_count : Nat
  reservoir : RaceReservoir
deriving DecidableEq

def ShredPairMetrics.new (source_a source_b : String) : ShredPairMetrics :=
  { source_a := source_a, source_b := source_b
    a_wins := 0, b_wins := 0, lead_sum_us := 0, lead_count := 0
    reservoir := RaceReservoir.new }

/-- Model of `ShredPairMetrics::record`. -/
def ShredPairMetrics.record (p : ShredPairMetrics) (winner : String)
    (lead_us : Int) : ShredPairMetrics :=
  { p with
    a_wins := if winner = p.source_a then p.a_wins + 1 else p.a_wins
    b_wins := if winner = p.source_a then p.b_wins else p.b_wins + 1
    lead_sum_us := p.lead_sum_us + lead_us
    lead_count := p.lead_count + 1
    reservoir := p.reservoir.push lead_us }

/-- The two shared maps owned by the race-tracker processing thread. -/
structure RaceState where
  arrivals : List ((Nat × Nat) × ShredFirstArrival)
  pairs : List ((String × String) × ShredPairMetrics)
deriving DecidableEq

/-- Model of `process_arrival` (shred_race.rs lines 234–278).  `now` stands
for the `metrics::now_ns()` call.  The `.abs() / 1000` on `i64` is division
of a non-negative value, hence `natAbs` then `Nat` division. -/
def process_arrival (now : Nat) (st : RaceState) (arrival : ShredArrival) : RaceState :=
  match alookup st.arrivals (arrival.slot, arrival.idx) with
  | some e =>
    if e.source = arrival.source then st
    else
      let arrivals' := aremove st.arrivals (arrival.slot, arrival.idx)
      let lead_us : Nat := ((e.recv_ns : Int) - (arrival.recv_ns : Int)).natAbs / 1000
      if lead_us ≥ 10000000 then { st with arrivals := arrivals' }
      else
        let winner := if e.recv_ns ≤ arrival.recv_ns then e.source else arrival.source
        let key : String × String :=
          if e.source ≤ arrival.source then (e.source, arrival.source)
          else (arrival.source, e.source)
        let pair := (alookup st.pairs key).getD (ShredPairMetrics.new key.1 key.2)
        { arrivals := arrivals'
          pairs := ainsert st.pairs key (pair.record winner (lead_us : Int)) }
  | none =>
    { st with
      arrivals := ainsert st.arrivals (arrival.slot, arrival.idx)
        ⟨arrival.recv_ns, arrival.source, now⟩ }

end ShredRace

/-! ### Claim theorems for shred_race.rs -/

/-- C9: whenever `process_arrival` changes the pair-metrics map at some key,
that key is canonically ordered (`key_a ≤ key_b` lexicographically) and the
step was a second arrival for the `(slot, idx)` whose first arrival came
from a distinct source.  (Same-source repeats and first arrivals leave every
pair record unchanged.) -/
theorem C9_race_pair_update (now : Nat) (st : ShredRace.RaceState)
    (a : ShredRace.ShredArrival) (k : String × String)
    (h : alookup (ShredRace.process_arrival now st a).pairs k ≠ alookup st.pairs k) :
    k.1 ≤ k.2 ∧
    ∃ e, alookup st.arrivals (a.slot, a.idx) = some e ∧ e.source ≠ a.source := by
  rcases halo : alookup st.arrivals (a.slot, a.idx) with _ | e
  · simp only [ShredRace.process_arrival, halo] at h
    exact absurd rfl h
  · simp only [ShredRace.process_arrival, halo] at h
    by_cases hsrc : e.source = a.source
    · rw [if_pos hsrc] at h
      exact absurd rfl h
    · rw [if_neg hsrc] at h
      by_cases hart : ((e.recv_ns : Int) - (a.recv_ns : Int)).natAbs / 1000 ≥ 10000000
      · rw [if_pos hart] at h
        exact absurd rfl h
      · rw [if_neg hart] at h
        by_cases hk : k = (if e.source ≤ a.source then (e.source, a.source)
            else (a.source, e.source))
        · refine ⟨?_, e, rfl, hsrc⟩
          rw [hk]
          by_cases hle : e.source ≤ a.source
          · rw [if_pos hle]
            exact hle
          · rw [if_neg hle]
            exact le_of_not_le hle
        · exact absurd (alookup_ainsert_ne st.pairs _ k _ hk) h

/-- Witness for C9: source "a" saw (slot 1, idx 2) first, source "b" arrives
second; the pair record at the canonical key ("a", "b") is created. -/
theorem C9_race_pair_update_witness :
    ("a" : String) ≤ "b" ∧
    ∃ e, alookup (ShredRace.RaceState.mk
        [((1, 2), ShredRace.ShredFirstArrival.mk 5000 "a" 0)] []).arrivals (1, 2) = some e ∧
      e.source ≠ "b" := by
  have hab : ("a" : String) ≤ "b" := by
    rw [String.le_iff_toList_le]
    decide
  refine C9_race_pair_update 7000
    (ShredRace.RaceState.mk [((1, 2), ShredRace.ShredFirstArrival.mk 5000 "a" 0)] [])
    (ShredRace.ShredArrival.mk "b" 1 2 6000) ("a", "b") ?_
  simp [ShredRace.process_arrival, alookup, ainsert, hab]

/-! ## decoder.rs test constructor `make_shred` and the parse round-trip -/

/-- Model of the test helper `make_shred` (decoder.rs lines 660–672): a
1228-byte zero buffer with the variant byte, the absolute payload-end `u16`
(little endian), the last-in-slot flag, and the payload copied in at offset
88. -/
def make_shred (variant : Nat) (data : List Nat) (last_in_slot : Bool) : List Nat :=
  let total := 1228
  let buf0 := List.replicate total 0
  let buf1 := buf0.set VARIANT_OFF variant
  let size_abs := (DATA_OFF + data.length) % 65536
  let buf2 := buf1.set SIZE_OFF (size_abs % 256)
  let buf3 := buf2.set (SIZE_OFF + 1) (size_abs / 256)
  let buf4 := if last_in_slot then buf3.set FLAGS_OFF LAST_IN_SLOT_FLAG else buf3
  buf4.take DATA_OFF ++ data ++ buf4.drop (DATA_OFF + data.length)

theorem splice_length (b p : List Nat) (hb : b.length = 1228)
    (hlen : 88 + p.length ≤ 1228) :
    (b.take 88 ++ p ++ b.drop (88 + p.length)).length = 1228 := by
  simp only [List.length_append, List.length_take, List.length_drop, hb]
  omega

theorem splice_getD_lt (b p : List Nat) (hb : b.length = 1228) (i : Nat) (hi : i < 88) :
    (b.take 88 ++ p ++ b.drop (88 + p.length)).getD i 0 = b.getD i 0 := by
  have ht : (b.take 88).length = 88 := by rw [List.length_take]; omega
  rw [List.getD_append _ _ _ i (by rw [List.length_append, ht]; omega),
    List.getD_append _ _ _ i (by rw [ht]; omega),
    List.getD_eq_getElem _ 0 (by rw [ht]; omega), List.getElem_take,
    ← List.getD_eq_getElem _ 0 (by omega : i < b.length)]

theorem splice_payload (b p : List Nat) (hb : b.length = 1228) :
    ((b.take 88 ++ p ++ b.drop (88 + p.length)).drop 88).take p.length = p := by
  have ht : (b.take 88).length = 88 := by rw [List.length_take]; omega
  have hdrop : (b.take 88 ++ p ++ b.drop (88 + p.length)).drop 88
      = p ++ b.drop (88 + p.length) := by
    calc (b.take 88 ++ p ++ b.drop (88 + p.length)).drop 88
        = (b.take 88 ++ (p ++ b.drop (88 + p.length))).drop (b.take 88).length := by
          rw [List.append_assoc, ht]
      _ = p ++ b.drop (88 + p.length) := List.drop_left _ _
  rw [hdrop]
  exact List.take_left p _

/-- The round-trip core: parsing a 1228-byte buffer with the payload
spliced in at offset 88, given the header bytes. -/
theorem parse_splice (b p : List Nat) (f : Bool) (v : Nat)
    (hb : b.length = 1228)
    (h64 : b.getD 64 0 = v)
    (h85 : b.getD 85 0 = if f then 1 else 0)
    (h86 : b.getD 86 0 = (88 + p.length) % 256)
    (h87 : b.getD 87 0 = (88 + p.length) / 256)
    (hv : v = LEGACY_DATA_VARIANT ∨ Nat.land v 0xF0 = 0x80 ∨ Nat.land v 0xF0 = 0x90 ∨
      Nat.land v 0xF0 = 0xa0 ∨ Nat.land v 0xF0 = 0xb0)
    (hlen : 88 + p.length ≤ 1228) :
    parse_data_payload (b.take 88 ++ p ++ b.drop (88 + p.length)) = some (f, p) := by
  have hmsl := splice_length b p hb hlen
  have hg := splice_getD_lt b p hb
  simp only [parse_data_payload, VARIANT_OFF, SIZE_OFF, DATA_OFF, FLAGS_OFF,
    LEGACY_DATA_VARIANT, LAST_IN_SLOT_FLAG] at hv ⊢
  have hsz : readU16LE (b.take 88 ++ p ++ b.drop (88 + p.length)) 86 = 88 + p.length := by
    have h861 : (86 : Nat) + 1 = 87 := rfl
    rw [readU16LE, h861, hg 86 (by omega), hg 87 (by omega), h86, h87]
    omega
  rw [if_neg (by rw [hmsl]; decide)]
  rw [if_neg (not_not_intro (by rw [hg 64 (by omega), h64]; exact hv))]
  rw [if_neg (by rw [hsz, hmsl]; omega)]
  rw [hsz]
  have harg : 88 + p.length - 88 = p.length := by omega
  rw [harg, splice_payload b p hb]
  simp only [hg 85 (by omega), h85]
  cases f <;> simp <;> decide

/-- C8: for every data-shred variant byte (legacy data or any merkle-data
high nibble), payload and last-in-slot flag, parsing the synthetic shred
built by `make_shred` returns exactly the flag and the payload. -/
theorem C8_parse_make_shred_roundtrip (v : Nat) (p : List Nat) (f : Bool)
    (hv : v = LEGACY_DATA_VARIANT ∨ Nat.land v 0xF0 = 0x80 ∨ Nat.land v 0xF0 = 0x90 ∨
      Nat.land v 0xF0 = 0xa0 ∨ Nat.land v 0xF0 = 0xb0)
    (hlen : DATA_OFF + p.length ≤ 1228) :
    parse_data_payload (make_shred v p f) = some (f, p) := by
  have hlen' : 88 + p.length ≤ 1228 := hlen
  have hsa : (88 + p.length) % 65536 = 88 + p.length := Nat.mod_eq_of_lt (by omega)
  cases f with
  | false =>
    have hms : make_shred v p false =
        ((((List.replicate 1228 0).set 64 v).set 86 (((88 + p.length) % 65536) % 256)).set 87
            (((88 + p.length) % 65536) / 256)).take 88 ++ p ++
          ((((List.replicate 1228 0).set 64 v).set 86 (((88 + p.length) % 65536) % 256)).set 87
            (((88 + p.length) % 65536) / 256)).drop (88 + p.length) := rfl
    rw [hms]
    apply parse_splice _ _ false v
    · simp only [List.length_set, List.length_replicate]
    · rw [getD_set_ne _ _ _ _ _ (by omega), getD_set_ne _ _ _ _ _ (by omega),
        getD_set_self _ _ _ _ (by simp only [List.length_replicate]; omega)]
    · rw [getD_set_ne _ _ _ _ _ (by omega), getD_set_ne _ _ _ _ _ (by omega),
        getD_set_ne _ _ _ _ _ (by omega), getD_replicate_gen _ _ (by omega)]
      rfl
    · rw [getD_set_ne _ _ _ _ _ (by omega),
        getD_set_self _ _ _ _ (by simp only [List.length_set, List.length_replicate]; omega),
        hsa]
    · rw [getD_set_self _ _ _ _ (by simp only [List.length_set, List.length_replicate]; omega),
        hsa]
    · exact hv
    · exact hlen'
  | true =>
    have hms : make_shred v p true =
        (((((List.replicate 1228 0).set 64 v).set 86 (((88 + p.length) % 65536) % 256)).set 87
            (((88 + p.length) % 65536) / 256)).set 85 1).take 88 ++ p ++
          (((((List.replicate 1228 0).set 64 v).set 86 (((88 + p.length) % 65536) % 256)).set 87
            (((88 + p.length) % 65536) / 256)).set 85 1).drop (88 + p.length) := rfl
    rw [hms]
    apply parse_splice _ _ true v
    · simp only [List.length_set, List.length_replicate]
    · rw [getD_set_ne _ _ _ _ _ (by omega), getD_set_ne _ _ _ _ _ (by omega),
        getD_set_ne _ _ _ _ _ (by omega),
        getD_set_self _ _ _ _ (by simp only [List.length_replicate]; omega)]
    · rw [getD_set_self _ _ _ _ (by simp only [List.length_set, List.length_replicate]; omega)]
      rfl
    · rw [getD_set_ne _ _ _ _ _ (by omega), getD_set_ne _ _ _ _ _ (by omega),
        getD_set_self _ _ _ _ (by simp only [List.length_set, List.length_replicate]; omega),
        hsa]
    · rw [getD_set_ne _ _ _ _ _ (by omega),
        getD_set_self _ _ _ _ (by simp only [List.length_set, List.length_replicate]; omega),
        hsa]
    · exact hv
    · exact hlen'

/-- Witness for C8 at variant 0x90 (chained merkle data), payload
[1, 2, 3], last-in-slot set. -/
theorem C8_parse_make_shred_roundtrip_witness :
    parse_data_payload (make_shred 144 [1, 2, 3] true) = some (true, [1, 2, 3]) :=
  C8_parse_make_shred_roundtrip 144 [1, 2, 3] true (by decide) (by decide)

/-! ## Association-list well-formedness lemmas (the `HashMap` key-uniqueness
invariant of the model) -/

theorem alookup_eq_none_iff {κ α : Type} [DecidableEq κ] (m : List (κ × α)) (k : κ) :
    alookup m k = none ↔ ∀ p ∈ m, p.1 ≠ k := by
  induction m with
  | nil => simp [alookup]
  | cons p r ih =>
    by_cases h : p.1 = k
    · simp [alookup, h]
    · simp [alookup, h, ih]

theorem alookup_some_mem {κ α : Type} [DecidableEq κ] {m : List (κ × α)} {k : κ} {v : α}
    (h : alookup m k = some v) : (k, v) ∈ m := by
  induction m with
  | nil => simp [alookup] at h
  | cons p r ih =>
    by_cases hp : p.1 = k
    · rw [alookup, if_pos hp] at h
      have hv : p.2 = v := by injection h
      have hpkv : p = (k, v) := by
        obtain ⟨a, b⟩ := p
        simp only at hp hv
        rw [hp, hv]
      rw [← hpkv]
      exact List.mem_cons_self _ _
    · rw [alookup, if_neg hp] at h
      exact List.mem_cons_of_mem _ (ih h)

theorem mem_ainsert_of_nodup {κ α : Type} [DecidableEq κ] {m : List (κ × α)} {k : κ} {v : α}
    (hnd : (m.map Prod.fst).Nodup) {q : κ × α} (hq : q ∈ ainsert m k v) :
    q = (k, v) ∨ (q ∈ m ∧ q.1 ≠ k) := by
  induction m with
  | nil => simp [ainsert] at hq; simp [hq]
  | cons p r ih =>
    rw [List.map_cons, List.nodup_cons] at hnd
    by_cases hp : p.1 = k
    · rw [ainsert, if_pos hp] at hq
      rcases List.mem_cons.mp hq with h | h
      · exact Or.inl h
      · right
        refine ⟨List.mem_cons_of_mem _ h, ?_⟩
        intro hqk
        exact hnd.1 (hp ▸ hqk ▸ List.mem_map_of_mem Prod.fst h)
    · rw [ainsert, if_neg hp] at hq
      rcases List.mem_cons.mp hq with h | h
      · right
        subst h
        exact ⟨List.mem_cons_self _ _, hp⟩
      · rcases ih hnd.2 h with h' | h'
        · exact Or.inl h'
        · exact Or.inr ⟨List.mem_cons_of_mem _ h'.1, h'.2⟩

theorem ainsert_keys_nodup {κ α : Type} [DecidableEq κ] {m : List (κ × α)} (k : κ) (v : α)
    (hnd : (m.map Prod.fst).Nodup) : ((ainsert m k v).map Prod.fst).Nodup := by
  induction m with
  | nil => simp [ainsert]
  | cons p r ih =>
    rw [List.map_cons, List.nodup_cons] at hnd
    by_cases hp : p.1 = k
    · rw [ainsert, if_pos hp, List.map_cons, List.nodup_cons]
      exact ⟨fun hk => hnd.1 (hp ▸ hk), hnd.2⟩
    · rw [ainsert, if_neg hp, List.map_cons, List.nodup_cons]
      refine ⟨?_, ih hnd.2⟩
      intro hmem
      rcases List.mem_map.mp hmem with ⟨q, hq, hq1⟩
      rcases mem_ainsert_of_nodup hnd.2 hq with h' | h'
      · exact hp (by rw [← hq1, h'])
      · exact hnd.1 (hq1 ▸ List.mem_map_of_mem Prod.fst h'.1)

theorem aremove_sublist {κ α : Type} [DecidableEq κ] (m : List (κ × α)) (k : κ) :
    (aremove m k).Sublist m := by
  induction m with
  | nil => simp [aremove]
  | cons p r ih =>
    rw [aremove]
    by_cases hp : p.1 = k
    · rw [if_pos hp]
      exact (List.sublist_cons_self p r)
    · rw [if_neg hp]
      exact ih.cons₂ p

theorem aremove_keys_nodup {κ α : Type} [DecidableEq κ] {m : List (κ × α)} (k : κ)
    (hnd : (m.map Prod.fst).Nodup) : ((aremove m k).map Prod.fst).Nodup :=
  hnd.sublist ((aremove_sublist m k).map Prod.fst)

theorem alookup_aremove_self {κ α : Type} [DecidableEq κ] {m : List (κ × α)} (k : κ)
    (hnd : (m.map Prod.fst).Nodup) : alookup (aremove m k) k = none := by
  induction m with
  | nil => simp [aremove, alookup]
  | cons p r ih =>
    rw [List.map_cons, List.nodup_cons] at hnd
    by_cases hp : p.1 = k
    · rw [aremove, if_pos hp, alookup_eq_none_iff]
      intro q hq hqk
      exact hnd.1 (hp ▸ hqk ▸ List.mem_map_of_mem Prod.fst hq)
    · rw [aremove, if_neg hp, alookup, if_neg hp]
      exact ih hnd.2

theorem alookup_aremove_ne {κ α : Type} [DecidableEq κ] (m : List (κ × α)) (k k' : κ)
    (h : k ≠ k') : alookup (aremove m k') k = alookup m k := by
  induction m with
  | nil => simp [aremove]
  | cons p r ih =>
    by_cases hp : p.1 = k'
    · rw [aremove, if_pos hp, alookup, if_neg (by rw [hp]; exact fun he => h he.symm)]
    · rw [aremove, if_neg hp, alookup, alookup]
      by_cases hpk : p.1 = k
      · rw [if_pos hpk, if_pos hpk]
      · rw [if_neg hpk, if_neg hpk]
        exact ih

/-! ## Coverage potential: the expected-shred mass of not-yet-recovered FEC
sets, used for the amended coverage inequality -/

/-- The contribution of one FEC set to the coverage potential: its `num_data`
while it has not recovered yet, 0 afterwards. -/
def fecContrib (f : FecSet) : Nat := if f.recovered then 0 else f.num_data

/-- Total coverage potential of the FEC-set map. -/
def fecPhi (l : List ((Nat × Nat) × FecSet)) : Nat :=
  (l.map fun q => fecContrib q.2).sum

theorem fecPhi_cons (p : (Nat × Nat) × FecSet) (l : List ((Nat × Nat) × FecSet)) :
    fecPhi (p :: l) = fecContrib p.2 + fecPhi l := by
  simp [fecPhi]

theorem fecPhi_filter_le (P : (Nat × Nat) × FecSet → Bool) (l : List ((Nat × Nat) × FecSet)) :
    fecPhi (l.filter P) ≤ fecPhi l := by
  induction l with
  | nil => simp [fecPhi]
  | cons p r ih =>
    rw [List.filter_cons]
    cases hP : P p
    · rw [if_neg (by simp [hP])]
      rw [fecPhi_cons]
      omega
    · rw [if_pos (by simp [hP]), fecPhi_cons, fecPhi_cons]
      omega

theorem fecPhi_ainsert_absent (m : List ((Nat × Nat) × FecSet)) (k : Nat × Nat) (v : FecSet)
    (h : alookup m k = none) :
    fecPhi (ainsert m k v) = fecPhi m + fecContrib v := by
  induction m with
  | nil => simp [ainsert, fecPhi]
  | cons p r ih =>
    rw [alookup] at h
    by_cases hp : p.1 = k
    · rw [if_pos hp] at h
      exact absurd h (by simp)
    · rw [if_neg hp] at h
      rw [ainsert, if_neg hp, fecPhi_cons, fecPhi_cons, ih h]
      dsimp only
      omega

theorem fecPhi_ainsert_present (m : List ((Nat × Nat) × FecSet)) (k : Nat × Nat)
    (v f : FecSet) (h : alookup m k = some f) :
    fecPhi (ainsert m k v) + fecContrib f = fecPhi m + fecContrib v := by
  induction m with
  | nil => simp [alookup] at h
  | cons p r ih =>
    rw [alookup] at h
    by_cases hp : p.1 = k
    · rw [if_pos hp] at h
      injection h with h
      rw [ainsert, if_pos hp, fecPhi_cons, fecPhi_cons, h]
      dsimp only
      omega
    · rw [if_neg hp] at h
      rw [ainsert, if_neg hp, fecPhi_cons, fecPhi_cons]
      have := ih h
      dsimp only at this ⊢
      omega

/-! ## Projection lemmas for the slot-state pipeline -/

theorem flushLoop_counted (fuel : Nat) (st : SlotState) :
    (SlotState.flushLoop fuel st).counted = st.counted := by
  induction fuel generalizing st with
  | zero => rfl
  | succ n ih =>
    rw [SlotState.flushLoop]
    cases alookup st.data_payloads st.next_contiguous
    · rfl
    · rw [ih]

theorem flush_contiguous_counted (st : SlotState) :
    st.flush_contiguous.counted = st.counted :=
  flushLoop_counted _ st

theorem streamPhase_counted (de : DeOracle) (st : SlotState) :
    (SlotState.streamPhase de st).1.counted = st.counted := by
  rw [SlotState.streamPhase]
  by_cases h : (st.entry_buf.drop st.consumed).isEmpty
  · rw [if_pos h]
  · rw [if_neg h]

theorem try_deserialize_counted (de : DeOracle) (st : SlotState) :
    (SlotState.try_deserialize de st).1.counted = st.counted := by
  rw [SlotState.try_deserialize]
  by_cases hb : !st.boundary_scanned
  · rw [if_pos hb]
    by_cases hl : (st.entry_buf.drop st.consumed).length < 48
    · rw [if_pos hl]
    · rw [if_neg hl]
      cases SlotState.scanBoundary de (st.entry_buf.drop st.consumed)
      · rfl
      · rw [streamPhase_counted]
  · rw [if_neg hb, streamPhase_counted]

theorem insertRecovered_counted (st : SlotState) (i : Nat) (l : List (Nat × List Nat)) :
    ((insertRecoveredShreds st i l).1).counted = st.counted := by
  induction l generalizing st with
  | nil => rfl
  | cons q r ih =>
    rw [insertRecoveredShreds]
    by_cases hs : (alookup st.data_payloads (min (i + q.1) U32_MAX)).isSome
    · rw [if_pos hs]
      exact ih st
    · rw [if_neg hs]
      cases hq : parse_data_payload q.2 with
      | none => exact ih st
      | some pr =>
        simp only
        rw [ih]
        simp [SlotState.set_first_index]
        by_cases h1 : st.next_contiguous = U32_MAX
        · rw [if_pos h1]
          split <;> split <;> rfl
        · rw [if_neg h1]
          split <;> split <;> rfl

theorem insertRecovered_count_zero (st : SlotState) (i : Nat) (l : List (Nat × List Nat))
    (h : (insertRecoveredShreds st i l).2 = 0) : (insertRecoveredShreds st i l).1 = st := by
  induction l generalizing st with
  | nil => rfl
  | cons q r ih =>
    rw [insertRecoveredShreds] at h ⊢
    by_cases hs : (alookup st.data_payloads (min (i + q.1) U32_MAX)).isSome
    · rw [if_pos hs] at h ⊢
      exact ih st h
    · rw [if_neg hs] at h ⊢
      cases hq : parse_data_payload q.2 with
      | none =>
        rw [hq] at h
        exact ih st h
      | some pr =>
        rw [hq] at h
        simp only at h
        omega

theorem insertRecovered_count_le (st : SlotState) (i : Nat) (l : List (Nat × List Nat)) :
    (insertRecoveredShreds st i l).2 ≤ l.length := by
  induction l generalizing st with
  | nil => simp [insertRecoveredShreds]
  | cons q r ih =>
    rw [insertRecoveredShreds]
    by_cases hs : (alookup st.data_payloads (min (i + q.1) U32_MAX)).isSome
    · rw [if_pos hs]
      calc (insertRecoveredShreds st i r).2 ≤ r.length := ih st
        _ ≤ (q :: r).length := by simp
    · rw [if_neg hs]
      cases hq : parse_data_payload q.2 with
      | none =>
        calc (insertRecoveredShreds st i r).2 ≤ r.length := ih st
          _ ≤ (q :: r).length := by simp
      | some pr =>
        simp only [List.length_cons]
        exact Nat.add_le_add_right (ih _) 1

/-! ## Reconstruction lemmas -/

theorem reconstruct_recovered (rs : RsOracle) (f : FecSet) :
    ((FecSet.reconstruct rs f).1).recovered = true := by
  rw [FecSet.reconstruct]
  dsimp only
  split
  · rfl
  · split
    · rfl
    · split <;> rfl

theorem reconstruct_len_le (rs : RsOracle) (f : FecSet) :
    ((FecSet.reconstruct rs f).2).length ≤ f.num_data := by
  rw [FecSet.reconstruct]
  dsimp only
  split
  · simp
  · split
    · simp
    · split
      · simp
      · calc _ ≤ ((List.range f.num_data).filter fun i => (alookup f.shards i).isNone).length :=
              List.length_filterMap_le _ _
          _ ≤ (List.range f.num_data).length := List.length_filter_le _ _
          _ = f.num_data := List.length_range f.num_data

theorem ready_to_recover_not_recovered (f : FecSet)
    (h : f.ready_to_recover = true) : f.recovered = false := by
  rw [FecSet.ready_to_recover, Bool.and_eq_true, Bool.not_eq_true'] at h
  exact h.1

theorem mem_ainsert_of_ne {κ α : Type} [DecidableEq κ] {m : List (κ × α)} {q : κ × α}
    (hq : q ∈ m) (k : κ) (v : α) (hne : q.1 ≠ k) : q ∈ ainsert m k v := by
  induction m with
  | nil => simp at hq
  | cons p r ih =>
    rw [ainsert]
    by_cases hp : p.1 = k
    · rw [if_pos hp]
      rcases List.mem_cons.mp hq with h | h
      · exact absurd (h ▸ hp) hne
      · exact List.mem_cons_of_mem _ h
    · rw [if_neg hp]
      rcases List.mem_cons.mp hq with h | h
      · exact h ▸ List.mem_cons_self _ _
      · exact List.mem_cons_of_mem _ (ih h)

/-! ## The decoder-loop invariant -/

/-- Invariant of `ShredDecoder::run`: key uniqueness of both maps, the
32-slot window bounds, single counting of slot outcomes (ghost
`outcomeCount` / `evicted`), one-shot FEC reconstruction (ghost
`fecReconCount`), and the coverage balance
`seen + Φ ≤ expected + wire-data-count`. -/
structure DecInv (D : Dec) : Prop where
  slotsNodup : (D.slots.map Prod.fst).Nodup
  fecNodup : (D.fec_sets.map Prod.fst).Nodup
  slotLe : ∀ p ∈ D.slots, p.1 ≤ D.highest_slot
  slotYoung : ∀ p ∈ D.slots, D.highest_slot ≤ p.1 + SLOT_EXPIRY_DISTANCE
  outcPresent : ∀ p ∈ D.slots, D.outcomeCount p.1 = (if p.2.counted then 1 else 0)
  outcAbsent : ∀ s, (∀ p ∈ D.slots, p.1 ≠ s) →
    D.outcomeCount s = (if D.evicted s then 1 else 0)
  evictedOld : ∀ s, D.evicted s = true → s + SLOT_EXPIRY_DISTANCE < D.highest_slot
  evictedAbsent : ∀ p ∈ D.slots, D.evicted p.1 = false
  fecReconLeOne : ∀ k, D.fecReconCount k ≤ 1
  fecReconPresent : ∀ q ∈ D.fec_sets, q.2.recovered = false → D.fecReconCount q.1 = 0
  fecReconAbsent : ∀ k, (∀ q ∈ D.fec_sets, q.1 ≠ k) → 1 ≤ D.fecReconCount k →
    k.1 + SLOT_EXPIRY_DISTANCE < D.highest_slot
  coverage : D.metrics.coverage_shreds_seen + fecPhi D.fec_sets
    ≤ D.metrics.coverage_shreds_expected + D.wireDataCount

theorem decInv_init (m : SourceMetrics)
    (hcov : m.coverage_shreds_seen ≤ m.coverage_shreds_expected) : DecInv (Dec.init m) := by
  constructor <;> simp [Dec.init, fecPhi]
  exact hcov

/-! ### The expiration phase -/

theorem expireMetricsUpdate_coverage (m : SourceMetrics) (st : SlotState) :
    (expireMetricsUpdate m st).coverage_shreds_seen = m.coverage_shreds_seen ∧
    (expireMetricsUpdate m st).coverage_shreds_expected = m.coverage_shreds_expected := by
  rw [expireMetricsUpdate]
  constructor <;>
  · split
    · rfl
    · split <;> rfl

theorem expire_kept (h : Nat) (m : SourceMetrics) (o : Nat → Nat) (e : Nat → Bool)
    (l : List (Nat × SlotState)) :
    (expireSlots h m o e l).1
      = l.filter fun p => decide (p.1 + SLOT_EXPIRY_DISTANCE ≥ h) := by
  induction l generalizing m o e with
  | nil => rfl
  | cons p r ih =>
    obtain ⟨ps, pst⟩ := p
    rw [expireSlots, List.filter_cons]
    by_cases hk : ps + SLOT_EXPIRY_DISTANCE ≥ h
    · rw [if_pos (show decide ((ps, pst).1 + SLOT_EXPIRY_DISTANCE ≥ h) = true by
        simpa using hk), if_pos hk]
      dsimp only
      rw [ih]
    · rw [if_neg (show ¬ decide ((ps, pst).1 + SLOT_EXPIRY_DISTANCE ≥ h) = true by
        simpa using hk), if_neg hk]
      exact ih _ _ _

theorem expire_coverage (h : Nat) (m : SourceMetrics) (o : Nat → Nat) (e : Nat → Bool)
    (l : List (Nat × SlotState)) :
    ((expireSlots h m o e l).2.1).coverage_shreds_seen = m.coverage_shreds_seen ∧
    ((expireSlots h m o e l).2.1).coverage_shreds_expected = m.coverage_shreds_expected := by
  induction l generalizing m o e with
  | nil => exact ⟨rfl, rfl⟩
  | cons p r ih =>
    obtain ⟨ps, pst⟩ := p
    rw [expireSlots]
    by_cases hk : ps + SLOT_EXPIRY_DISTANCE ≥ h
    · rw [if_pos hk]
      dsimp only
      exact ih m o e
    · rw [if_neg hk]
      constructor
      · rw [(ih _ _ _).1, (expireMetricsUpdate_coverage m pst).1]
      · rw [(ih _ _ _).2, (expireMetricsUpdate_coverage m pst).2]

theorem expire_ghost (h : Nat) (m : SourceMetrics) (o : Nat → Nat) (e : Nat → Bool)
    (l : List (Nat × SlotState)) (hnd : (l.map Prod.fst).Nodup) (s : Nat) :
    ((∀ p ∈ l, p.1 ≠ s) →
      (expireSlots h m o e l).2.2.1 s = o s ∧ (expireSlots h m o e l).2.2.2 s = e s) ∧
    (∀ st', (s, st') ∈ l →
      (s + SLOT_EXPIRY_DISTANCE ≥ h →
        (expireSlots h m o e l).2.2.1 s = o s ∧ (expireSlots h m o e l).2.2.2 s = e s) ∧
      (s + SLOT_EXPIRY_DISTANCE < h →
        (expireSlots h m o e l).2.2.2 s = true ∧
        (expireSlots h m o e l).2.2.1 s = (if st'.counted then o s else o s + 1))) := by
  induction l generalizing m o e with
  | nil =>
    refine ⟨fun _ => ⟨rfl, rfl⟩, ?_⟩
    intro st' hst'
    simp at hst'
  | cons p r ih =>
    obtain ⟨ps, pst⟩ := p
    rw [List.map_cons, List.nodup_cons] at hnd
    rw [expireSlots]
    by_cases hk : ps + SLOT_EXPIRY_DISTANCE ≥ h
    · rw [if_pos hk]
      dsimp only
      constructor
      · intro habs
        exact (ih m o e hnd.2).1 fun q hq => habs q (List.mem_cons_of_mem _ hq)
      · intro st' hst'
        rcases List.mem_cons.mp hst' with heq | hmem
        · have hse : ps = s := by injection heq.symm
          subst hse
          have habs : ∀ q ∈ r, q.1 ≠ ps := by
            intro q hq hq1
            have hm : q.1 ∈ List.map Prod.fst r := List.mem_map_of_mem Prod.fst hq
            rw [hq1] at hm
            exact hnd.1 hm
          refine ⟨fun _ => (ih m o e hnd.2).1 habs, fun hlt => absurd hk (by omega)⟩
        · exact (ih m o e hnd.2).2 st' hmem
    · rw [if_neg hk]
      have hrec := ih (expireMetricsUpdate m pst)
        (if pst.counted then o else fun x => if x = ps then o x + 1 else o x)
        (fun x => if x = ps then true else e x) hnd.2
      constructor
      · intro habs
        have hps : ps ≠ s := habs (ps, pst) (List.mem_cons_self _ _)
        have hA := hrec.1 fun q hq => habs q (List.mem_cons_of_mem _ hq)
        rw [hA.1, hA.2]
        constructor
        · split
          · rfl
          · dsimp only
            rw [if_neg (fun he : s = ps => hps he.symm)]
        · dsimp only
          rw [if_neg (fun he : s = ps => hps he.symm)]
      · intro st' hst'
        rcases List.mem_cons.mp hst' with heq | hmem
        · have hse : ps = s := by injection heq.symm
          have hstp : pst = st' := by injection heq.symm
          subst hse
          subst hstp
          have habs : ∀ q ∈ r, q.1 ≠ ps := by
            intro q hq hq1
            have hm : q.1 ∈ List.map Prod.fst r := List.mem_map_of_mem Prod.fst hq
            rw [hq1] at hm
            exact hnd.1 hm
          have hA := hrec.1 habs
          refine ⟨fun hge => absurd hge (by omega), fun _ => ?_⟩
          refine ⟨?_, ?_⟩
          · rw [hA.2]
            dsimp only
            rw [if_pos rfl]
          · rw [hA.1]
            split
            · rfl
            · dsimp only
              rw [if_pos rfl]
        · have hps : ps ≠ s := by
            intro he
            have hm : (s, st').1 ∈ List.map Prod.fst r := List.mem_map_of_mem Prod.fst hmem
            rw [← he] at hm
            exact hnd.1 hm
          have hrec2 := hrec.2 st' hmem
          constructor
          · intro hge
            have hB := hrec2.1 hge
            rw [hB.1, hB.2]
            constructor
            · split
              · rfl
              · dsimp only
                rw [if_neg (fun he : s = ps => hps he.symm)]
            · dsimp only
              rw [if_neg (fun he : s = ps => hps he.symm)]
          · intro hlt
            have hB := hrec2.2 hlt
            rw [hB.2]
            refine ⟨hB.1, ?_⟩
            split
            · split
              · rfl
              · dsimp only
                rw [if_neg (fun he : s = ps => hps he.symm)]
            · split
              · rfl
              · dsimp only
                rw [if_neg (fun he : s = ps => hps he.symm)]

/-! ### Invariant preservation through the expiration phase -/

theorem advanceHighest_highest (slot : Nat) (D : Dec) :
    (advanceHighest slot D).highest_slot = max D.highest_slot slot := by
  rw [advanceHighest]
  by_cases h : slot > D.highest_slot
  · rw [if_pos h]
    dsimp only
    omega
  · rw [if_neg h]
    omega

theorem decInv_advanceHighest (slot : Nat) (D : Dec) (hI : DecInv D) :
    DecInv (advanceHighest slot D) := by
  rw [advanceHighest]
  by_cases hgt : slot > D.highest_slot
  · rw [if_pos hgt]
    dsimp only
    have hkept := expire_kept slot D.metrics D.outcomeCount D.evicted D.slots
    have hgh := expire_ghost slot D.metrics D.outcomeCount D.evicted D.slots hI.slotsNodup
    have hcov := expire_coverage slot D.metrics D.outcomeCount D.evicted D.slots
    constructor <;> dsimp only
    · rw [hkept]
      exact hI.slotsNodup.sublist ((List.filter_sublist D.slots).map Prod.fst)
    · exact hI.fecNodup.sublist ((List.filter_sublist D.fec_sets).map Prod.fst)
    · intro p hp
      rw [hkept] at hp
      have := hI.slotLe p (List.mem_filter.mp hp).1
      omega
    · intro p hp
      rw [hkept] at hp
      have := of_decide_eq_true (List.mem_filter.mp hp).2
      omega
    · intro p hp
      rw [hkept] at hp
      obtain ⟨a, b⟩ := p
      have hm := (List.mem_filter.mp hp).1
      have hcond : a + SLOT_EXPIRY_DISTANCE ≥ slot := by
        have := of_decide_eq_true (List.mem_filter.mp hp).2
        exact this
      have hB := ((hgh a).2 b hm).1 hcond
      rw [hB.1]
      exact hI.outcPresent (a, b) hm
    · intro s habs
      by_cases hin : ∀ p ∈ D.slots, p.1 ≠ s
      · have hA := (hgh s).1 hin
        rw [hA.1, hA.2]
        exact hI.outcAbsent s hin
      · push_neg at hin
        obtain ⟨p, hp, hps⟩ := hin
        obtain ⟨a, b⟩ := p
        have hae : a = s := hps
        subst hae
        have hlt : a + SLOT_EXPIRY_DISTANCE < slot := by
          by_contra hge
          push_neg at hge
          have hmem : (a, b) ∈ List.filter
              (fun p => decide (p.1 + SLOT_EXPIRY_DISTANCE ≥ slot)) D.slots :=
            List.mem_filter.mpr ⟨hp, by simpa using hge⟩
          rw [← hkept] at hmem
          exact habs (a, b) hmem rfl
        have hB := ((hgh a).2 b hp).2 hlt
        rw [hB.1, hB.2, if_pos rfl]
        have := hI.outcPresent (a, b) hp
        dsimp only at this
        rw [this]
        split <;> rfl
    · intro s hev
      by_cases hin : ∀ p ∈ D.slots, p.1 ≠ s
      · have hA := (hgh s).1 hin
        rw [hA.2] at hev
        have := hI.evictedOld s hev
        omega
      · push_neg at hin
        obtain ⟨p, hp, hps⟩ := hin
        obtain ⟨a, b⟩ := p
        have hae : a = s := hps
        subst hae
        by_cases hcond : a + SLOT_EXPIRY_DISTANCE ≥ slot
        · have hB := ((hgh a).2 b hp).1 hcond
          rw [hB.2] at hev
          have := hI.evictedAbsent (a, b) hp
          dsimp only at this
          rw [this] at hev
          exact absurd hev (by simp)
        · omega
    · intro p hp
      rw [hkept] at hp
      obtain ⟨a, b⟩ := p
      have hm := (List.mem_filter.mp hp).1
      have hcond : a + SLOT_EXPIRY_DISTANCE ≥ slot :=
        of_decide_eq_true (List.mem_filter.mp hp).2
      have hB := ((hgh a).2 b hm).1 hcond
      rw [hB.2]
      exact hI.evictedAbsent (a, b) hm
    · exact hI.fecReconLeOne
    · intro q hq
      exact hI.fecReconPresent q (List.mem_filter.mp hq).1
    · intro k habs hge
      by_cases hin : ∀ q ∈ D.fec_sets, q.1 ≠ k
      · have := hI.fecReconAbsent k hin hge
        omega
      · push_neg at hin
        obtain ⟨q, hq, hqk⟩ := hin
        have : ¬ (q.1.1 + SLOT_EXPIRY_DISTANCE ≥ slot) := by
          intro hcond
          exact habs q (List.mem_filter.mpr ⟨hq, by simpa using hcond⟩) hqk
        rw [hqk] at this
        omega
    · rw [hcov.1, hcov.2]
      have h1 := fecPhi_filter_le
        (fun q => decide (q.1.1 + SLOT_EXPIRY_DISTANCE ≥ slot)) D.fec_sets
      have h2 := hI.coverage
      omega
  · rw [if_neg hgt]
    exact hI

/-! ### Invariant preservation for the slot write-back -/

theorem mem_ainsert_self {κ α : Type} [DecidableEq κ] (m : List (κ × α)) (k : κ) (v : α) :
    (k, v) ∈ ainsert m k v :=
  alookup_some_mem (alookup_ainsert_self m k v)

theorem forall_ainsert_keys {κ α : Type} [DecidableEq κ] {m : List (κ × α)} {k x : κ} {v : α}
    (h : ∀ q ∈ ainsert m k v, q.1 ≠ x) : (∀ q ∈ m, q.1 ≠ x) ∧ k ≠ x := by
  have hk : k ≠ x := h (k, v) (mem_ainsert_self m k v)
  refine ⟨?_, hk⟩
  intro q hq
  by_cases hqk : q.1 = k
  · rw [hqk]
    exact hk
  · exact h q (mem_ainsert_of_ne hq k v hqk)

/-- The stored `counted` flag of the slot that `entry(slot).or_insert_with`
returns (false for a fresh state). -/
def storedCounted (slots : List (Nat × SlotState)) (slot : Nat) : Bool :=
  match alookup slots slot with
  | some st => st.counted
  | none => false

theorem evicted_false_of_young (D : Dec) (hI : DecInv D) (slot : Nat)
    (hd : D.highest_slot ≤ slot + SLOT_EXPIRY_DISTANCE) : D.evicted slot = false := by
  cases hev : D.evicted slot
  · rfl
  · have := hI.evictedOld slot hev
    omega

theorem outc_stored (D : Dec) (hI : DecInv D) (slot : Nat)
    (hd : D.highest_slot ≤ slot + SLOT_EXPIRY_DISTANCE) :
    D.outcomeCount slot = (if storedCounted D.slots slot then 1 else 0) := by
  rw [storedCounted]
  cases hlk : alookup D.slots slot with
  | some st => exact hI.outcPresent (slot, st) (alookup_some_mem hlk)
  | none =>
    have habs : ∀ p ∈ D.slots, p.1 ≠ slot := by
      intro p hp
      exact (alookup_eq_none_iff D.slots slot).mp hlk p hp
    rw [hI.outcAbsent slot habs, evicted_false_of_young D hI slot hd]

/-- Write-back with no counting transition: the final state keeps the
stored (or fresh) `counted` flag and the ghost outcome map is unchanged. -/
theorem slots_writeback_simple (D : Dec) (hI : DecInv D) (slot : Nat) (stF : SlotState)
    (hs : slot ≤ D.highest_slot) (hd : D.highest_slot ≤ slot + SLOT_EXPIRY_DISTANCE)
    (hcnt : stF.counted = storedCounted D.slots slot) :
    ((ainsert D.slots slot stF).map Prod.fst).Nodup ∧
    (∀ p ∈ ainsert D.slots slot stF, p.1 ≤ D.highest_slot) ∧
    (∀ p ∈ ainsert D.slots slot stF, D.highest_slot ≤ p.1 + SLOT_EXPIRY_DISTANCE) ∧
    (∀ p ∈ ainsert D.slots slot stF, D.outcomeCount p.1 = (if p.2.counted then 1 else 0)) ∧
    (∀ s, (∀ p ∈ ainsert D.slots slot stF, p.1 ≠ s) →
      D.outcomeCount s = (if D.evicted s then 1 else 0)) ∧
    (∀ p ∈ ainsert D.slots slot stF, D.evicted p.1 = false) := by
  refine ⟨ainsert_keys_nodup slot stF hI.slotsNodup, ?_, ?_, ?_, ?_, ?_⟩
  · intro p hp
    rcases mem_ainsert_of_nodup hI.slotsNodup hp with h | h
    · rw [h]
      exact hs
    · exact hI.slotLe p h.1
  · intro p hp
    rcases mem_ainsert_of_nodup hI.slotsNodup hp with h | h
    · rw [h]
      exact hd
    · exact hI.slotYoung p h.1
  · intro p hp
    rcases mem_ainsert_of_nodup hI.slotsNodup hp with h | h
    · rw [h]
      dsimp only
      rw [hcnt]
      exact outc_stored D hI slot hd
    · exact hI.outcPresent p h.1
  · intro s habs
    exact hI.outcAbsent s fun p hp => by
      by_cases hpk : p.1 = slot
      · rw [hpk]
        exact (forall_ainsert_keys habs).2
      · exact habs p (mem_ainsert_of_ne hp slot stF hpk)
  · intro p hp
    rcases mem_ainsert_of_nodup hI.slotsNodup hp with h | h
    · rw [h]
      exact evicted_false_of_young D hI slot hd
    · exact hI.evictedAbsent p h.1

/-- Write-back with the counting transition: the stored flag was false, the
final state has `counted` and the ghost outcome count of `slot` is bumped. -/
theorem slots_writeback_fire (D : Dec) (hI : DecInv D) (slot : Nat) (stF : SlotState)
    (hs : slot ≤ D.highest_slot) (hd : D.highest_slot ≤ slot + SLOT_EXPIRY_DISTANCE)
    (hold : storedCounted D.slots slot = false)
    (hcnt : stF.counted = true) :
    ((ainsert D.slots slot stF).map Prod.fst).Nodup ∧
    (∀ p ∈ ainsert D.slots slot stF, p.1 ≤ D.highest_slot) ∧
    (∀ p ∈ ainsert D.slots slot stF, D.highest_slot ≤ p.1 + SLOT_EXPIRY_DISTANCE) ∧
    (∀ p ∈ ainsert D.slots slot stF,
      (fun x => if x = slot then D.outcomeCount x + 1 else D.outcomeCount x) p.1
        = (if p.2.counted then 1 else 0)) ∧
    (∀ s, (∀ p ∈ ainsert D.slots slot stF, p.1 ≠ s) →
      (fun x => if x = slot then D.outcomeCount x + 1 else D.outcomeCount x) s
        = (if D.evicted s then 1 else 0)) ∧
    (∀ p ∈ ainsert D.slots slot stF, D.evicted p.1 = false) := by
  have houtc : D.outcomeCount slot = 0 := by
    rw [outc_stored D hI slot hd, hold]
    rfl
  refine ⟨ainsert_keys_nodup slot stF hI.slotsNodup, ?_, ?_, ?_, ?_, ?_⟩
  · intro p hp
    rcases mem_ainsert_of_nodup hI.slotsNodup hp with h | h
    · rw [h]
      exact hs
    · exact hI.slotLe p h.1
  · intro p hp
    rcases mem_ainsert_of_nodup hI.slotsNodup hp with h | h
    · rw [h]
      exact hd
    · exact hI.slotYoung p h.1
  · intro p hp
    rcases mem_ainsert_of_nodup hI.slotsNodup hp with h | h
    · rw [h]
      dsimp only
      rw [if_pos rfl, houtc, hcnt]
      rfl
    · dsimp only
      rw [if_neg h.2]
      exact hI.outcPresent p h.1
  · intro s habs
    have hks := forall_ainsert_keys habs
    dsimp only
    rw [if_neg fun he => hks.2 he.symm]
    exact hI.outcAbsent s fun p hp => by
      by_cases hpk : p.1 = slot
      · rw [hpk]
        exact hks.2
      · exact habs p (mem_ainsert_of_ne hp slot stF hpk)
  · intro p hp
    rcases mem_ainsert_of_nodup hI.slotsNodup hp with h | h
    · rw [h]
      exact evicted_false_of_young D hI slot hd
    · exact hI.evictedAbsent p h.1

/-! ### Pipeline projection lemmas -/

theorem set_first_index_counted (st : SlotState) (i : Nat) :
    (st.set_first_index i).counted = st.counted := by
  rw [SlotState.set_first_index]
  split <;> rfl

theorem dataShredUpdate_counted (st : SlotState) (i : Nat) (f : Bool) (p : List Nat) :
    (dataShredUpdate st i f p).counted = st.counted := by
  rw [dataShredUpdate]
  rw [flush_contiguous_counted]
  split <;> split <;> rw [set_first_index_counted]

theorem getOrCreateSlot_coverage (m : SourceMetrics) (slots : List (Nat × SlotState))
    (slot now : Nat) :
    ((getOrCreateSlot m slots slot now).2).coverage_shreds_seen = m.coverage_shreds_seen ∧
    ((getOrCreateSlot m slots slot now).2).coverage_shreds_expected
      = m.coverage_shreds_expected := by
  rw [getOrCreateSlot]
  cases alookup slots slot <;> exact ⟨rfl, rfl⟩

theorem getOrCreateSlot_counted (m : SourceMetrics) (slots : List (Nat × SlotState))
    (slot now : Nat) :
    ((getOrCreateSlot m slots slot now).1).counted = storedCounted slots slot := by
  rw [getOrCreateSlot, storedCounted]
  cases alookup slots slot <;> rfl

theorem completeCheck_coverage (st : SlotState) (m : SourceMetrics) (outc : Nat → Nat)
    (slot : Nat) :
    ((completeCheck st m outc slot).2.1).coverage_shreds_seen = m.coverage_shreds_seen ∧
    ((completeCheck st m outc slot).2.1).coverage_shreds_expected
      = m.coverage_shreds_expected := by
  rw [completeCheck]
  split <;> exact ⟨rfl, rfl⟩

/-- The shard-only FEC update (`or_insert` of a shard, shape unchanged)
keeps the key set, the potential and the not-yet-recovered entries. -/
theorem fec_shard_insert_facts (m : List ((Nat × Nat) × FecSet))
    (hnd : (m.map Prod.fst).Nodup) (gh : Nat × Nat → Nat)
    (hpres : ∀ q ∈ m, q.2.recovered = false → gh q.1 = 0)
    (k : Nat × Nat) (fec fec' : FecSet)
    (hlk : alookup m k = some fec) (hrec : fec'.recovered = fec.recovered)
    (hnum : fec'.num_data = fec.num_data) :
    (((ainsert m k fec').map Prod.fst).Nodup) ∧
    (fecPhi (ainsert m k fec') = fecPhi m) ∧
    (∀ q ∈ ainsert m k fec', q.2.recovered = false → gh q.1 = 0) ∧
    (∀ x, (∀ q ∈ ainsert m k fec', q.1 ≠ x) → ∀ q ∈ m, q.1 ≠ x) := by
  refine ⟨ainsert_keys_nodup k fec' hnd, ?_, ?_, ?_⟩
  · have h := fecPhi_ainsert_present m k fec' fec hlk
    have hcon : fecContrib fec' = fecContrib fec := by
      rw [fecContrib, fecContrib, hrec, hnum]
    omega
  · intro q hq hqrec
    rcases mem_ainsert_of_nodup hnd hq with h | h
    · rw [h] at hqrec
      have hfrec : fec.recovered = false := by rw [← hrec]; exact hqrec
      have h0 := hpres (k, fec) (alookup_some_mem hlk) hfrec
      rw [h]
      exact h0
    · exact hpres q h.1 hqrec
  · intro x habs q hq
    by_cases hqk : q.1 = k
    · rw [hqk]
      exact (forall_ainsert_keys habs).2
    · exact habs q (mem_ainsert_of_ne hq k fec' hqk)

/-! ### Invariant preservation: the data-shred path -/

theorem decInv_dataStep (de : DeOracle) (D : Dec) (now : Nat) (raw : RawShred)
    (slot shred_index fec_set_index : Nat) (hI : DecInv D)
    (hs : slot ≤ D.highest_slot) (hd : D.highest_slot ≤ slot + SLOT_EXPIRY_DISTANCE) :
    DecInv (dataStep de D now raw slot shred_index fec_set_index) := by
  rcases hparse : parse_data_payload raw.data with _ | pr
  · simp only [dataStep, hparse]
    exact hI
  · obtain ⟨f, payload⟩ := pr
    simp only [dataStep, hparse]
    set metrics1 : SourceMetrics :=
      { D.metrics with coverage_shreds_seen := D.metrics.coverage_shreds_seen + 1 } with hm1
    set sl := getOrCreateSlot metrics1 D.slots slot now with hsl
    set st0 : SlotState := { sl.1 with last_touch_ns := now } with hst0
    set fecSets1 :=
      (if shred_index ≥ fec_set_index then
        match alookup D.fec_sets (slot, fec_set_index) with
        | some fec =>
          if (alookup fec.shards (shred_index - fec_set_index)).isSome then D.fec_sets
          else ainsert D.fec_sets (slot, fec_set_index)
            { fec with
              shards := ainsert fec.shards (shred_index - fec_set_index) (padShred raw.data) }
        | none => D.fec_sets
      else D.fec_sets) with hfs1
    set st1 := dataShredUpdate st0 shred_index f payload with hst1
    set cc := completeCheck st1 sl.2 D.outcomeCount slot with hcc
    set des := SlotState.try_deserialize de cc.1 with hdes
    set final :=
      (if des.2 > 0 then
        ({ des.1 with txs_decoded := des.1.txs_decoded + des.2 },
         { cc.2.1 with txs_decoded := cc.2.1.txs_decoded + des.2 })
      else (des.1, cc.2.1)) with hfin
    have hc1 : st1.counted = storedCounted D.slots slot := by
      rw [hst1, dataShredUpdate_counted, hst0]
      show sl.1.counted = _
      rw [hsl, getOrCreateSlot_counted]
    have hfc : final.1.counted = cc.1.counted := by
      rw [hfin]
      split
      · show des.1.counted = _
        rw [hdes, try_deserialize_counted]
      · rw [hdes, try_deserialize_counted]
    have hfec : ((fecSets1.map Prod.fst).Nodup) ∧
        (fecPhi fecSets1 = fecPhi D.fec_sets) ∧
        (∀ q ∈ fecSets1, q.2.recovered = false → D.fecReconCount q.1 = 0) ∧
        (∀ x, (∀ q ∈ fecSets1, q.1 ≠ x) → ∀ q ∈ D.fec_sets, q.1 ≠ x) := by
      rw [hfs1]
      by_cases hge : shred_index ≥ fec_set_index
      · rw [if_pos hge]
        rcases hlk : alookup D.fec_sets (slot, fec_set_index) with _ | fec
        · exact ⟨hI.fecNodup, rfl, fun q hq h => hI.fecReconPresent q hq h, fun x h => h⟩
        · dsimp only
          by_cases hshard : (alookup fec.shards (shred_index - fec_set_index)).isSome
          · rw [if_pos hshard]
            exact ⟨hI.fecNodup, rfl, fun q hq h => hI.fecReconPresent q hq h, fun x h => h⟩
          · rw [if_neg hshard]
            exact fec_shard_insert_facts D.fec_sets hI.fecNodup D.fecReconCount
              hI.fecReconPresent (slot, fec_set_index) fec _ hlk rfl rfl
      · rw [if_neg hge]
        exact ⟨hI.fecNodup, rfl, fun q hq h => hI.fecReconPresent q hq h, fun x h => h⟩
    have hmcov : final.2.coverage_shreds_seen = D.metrics.coverage_shreds_seen + 1 ∧
        final.2.coverage_shreds_expected = D.metrics.coverage_shreds_expected := by
      have h1 : cc.2.1.coverage_shreds_seen = sl.2.coverage_shreds_seen ∧
          cc.2.1.coverage_shreds_expected = sl.2.coverage_shreds_expected := by
        rw [hcc]
        exact completeCheck_coverage st1 sl.2 D.outcomeCount slot
      have h2 : sl.2.coverage_shreds_seen = metrics1.coverage_shreds_seen ∧
          sl.2.coverage_shreds_expected = metrics1.coverage_shreds_expected := by
        rw [hsl]
        exact getOrCreateSlot_coverage metrics1 D.slots slot now
      have h3 : final.2.coverage_shreds_seen = cc.2.1.coverage_shreds_seen ∧
          final.2.coverage_shreds_expected = cc.2.1.coverage_shreds_expected := by
        rw [hfin]
        split
        · exact ⟨rfl, rfl⟩
        · exact ⟨rfl, rfl⟩
      rw [h3.1, h3.2, h1.1, h1.2, h2.1, h2.2, hm1]
      exact ⟨rfl, rfl⟩
    by_cases hfire : (st1.last_seen && decide (st1.max_index < st1.next_contiguous)
        && !st1.counted) = true
    · have hccv : cc = ({ st1 with counted := true },
          { sl.2 with slots_complete := sl.2.slots_complete + 1 },
          fun x => if x = slot then D.outcomeCount x + 1 else D.outcomeCount x) := by
        rw [hcc, completeCheck, if_pos hfire]
      have hold : storedCounted D.slots slot = false := by
        rw [← hc1]
        rcases Bool.and_eq_true_iff.mp hfire with ⟨_, h2⟩
        simpa using h2
      have hcnt : final.1.counted = true := by
        rw [hfc, hccv]
      have hw := slots_writeback_fire D hI slot final.1 hs hd hold hcnt
      constructor <;> dsimp only
      · exact hw.1
      · exact hfec.1
      · exact hw.2.1
      · exact hw.2.2.1
      · rw [hccv]
        exact hw.2.2.2.1
      · rw [hccv]
        exact hw.2.2.2.2.1
      · exact hI.evictedOld
      · exact hw.2.2.2.2.2
      · exact hI.fecReconLeOne
      · exact hfec.2.2.1
      · intro k habs hge
        exact hI.fecReconAbsent k (hfec.2.2.2 k habs) hge
      · rw [hmcov.1, hmcov.2, hfec.2.1]
        have := hI.coverage
        omega
    · have hccv : cc = (st1, sl.2, D.outcomeCount) := by
        rw [hcc, completeCheck, if_neg hfire]
      have hcnt : final.1.counted = storedCounted D.slots slot := by
        rw [hfc, hccv, ← hc1]
      have hw := slots_writeback_simple D hI slot final.1 hs hd hcnt
      constructor <;> dsimp only
      · exact hw.1
      · exact hfec.1
      · exact hw.2.1
      · exact hw.2.2.1
      · rw [hccv]
        exact hw.2.2.2.1
      · rw [hccv]
        exact hw.2.2.2.2.1
      · exact hI.evictedOld
      · exact hw.2.2.2.2.2
      · exact hI.fecReconLeOne
      · exact hfec.2.2.1
      · intro k habs hge
        exact hI.fecReconAbsent k (hfec.2.2.2 k habs) hge
      · rw [hmcov.1, hmcov.2, hfec.2.1]
        have := hI.coverage
        omega

/-! ### Invariant preservation: the coding-shred path -/

theorem decInv_codingStepRest (rs : RsOracle) (de : DeOracle) (D : Dec) (now : Nat)
    (raw : RawShred) (slot fec_set_index num_data num_coding shard_pos : Nat)
    (fecSets1 : List ((Nat × Nat) × FecSet)) (metrics1 : SourceMetrics) (fec : FecSet)
    (hI : DecInv D)
    (hs : slot ≤ D.highest_slot) (hd : D.highest_slot ≤ slot + SLOT_EXPIRY_DISTANCE)
    (hlk1 : alookup fecSets1 (slot, fec_set_index) = some fec)
    (hnod1 : (fecSets1.map Prod.fst).Nodup)
    (hphiEq : fecPhi fecSets1 + D.metrics.coverage_shreds_expected
      = fecPhi D.fec_sets + metrics1.coverage_shreds_expected)
    (hseenEq : metrics1.coverage_shreds_seen = D.metrics.coverage_shreds_seen)
    (hpres1 : ∀ q ∈ fecSets1, q.2.recovered = false → D.fecReconCount q.1 = 0)
    (habs1 : ∀ x, (∀ q ∈ fecSets1, q.1 ≠ x) → ∀ q ∈ D.fec_sets, q.1 ≠ x) :
    DecInv (codingStepRest rs de D now raw slot fec_set_index num_data num_coding shard_pos
      fecSets1 metrics1 fec) := by
  rw [codingStepRest]
  by_cases hshape : ¬ (fec.num_data = num_data ∧ fec.num_coding = num_coding)
  · rw [if_pos hshape]
    constructor <;> dsimp only
    · exact hI.slotsNodup
    · exact hnod1
    · exact hI.slotLe
    · exact hI.slotYoung
    · exact hI.outcPresent
    · exact hI.outcAbsent
    · exact hI.evictedOld
    · exact hI.evictedAbsent
    · exact hI.fecReconLeOne
    · exact hpres1
    · intro k habs hge
      exact hI.fecReconAbsent k (habs1 k habs) hge
    · rw [hseenEq]
      have := hI.coverage
      omega
  · rw [if_neg hshape]
    dsimp only
    set fec1 := (if (alookup fec.shards shard_pos).isSome then fec
      else { fec with shards := ainsert fec.shards shard_pos (padShred raw.data) }) with hf1
    have hf1rec : fec1.recovered = fec.recovered := by
      rw [hf1]
      split <;> rfl
    have hf1nd : fec1.num_data = fec.num_data := by
      rw [hf1]
      split <;> rfl
    by_cases hready : fec1.ready_to_recover = true
    · rw [if_pos hready]
      set recr := FecSet.reconstruct rs fec1 with hrecr
      have hrecov : recr.1.recovered = true := by
        rw [hrecr]
        exact reconstruct_recovered rs fec1
      have hfrec_false : fec.recovered = false := by
        rw [← hf1rec]
        exact ready_to_recover_not_recovered fec1 hready
      have hghost0 : D.fecReconCount (slot, fec_set_index) = 0 :=
        hpres1 ((slot, fec_set_index), fec) (alookup_some_mem hlk1) hfrec_false
      have hphi2 := fecPhi_ainsert_present fecSets1 (slot, fec_set_index) recr.1 fec hlk1
      have hcontrib_rec : fecContrib recr.1 = 0 := by
        rw [fecContrib, hrecov]
        rfl
      have hcontrib_fec : fecContrib fec = fec.num_data := by
        rw [fecContrib, hfrec_false]
        rfl
      have hgle : ∀ k, (fun k => if k = (slot, fec_set_index) then D.fecReconCount k + 1
          else D.fecReconCount k) k ≤ 1 := by
        intro k
        dsimp only
        by_cases hk : k = (slot, fec_set_index)
        · rw [if_pos hk, hk, hghost0]
        · rw [if_neg hk]
          exact hI.fecReconLeOne k
      have hgpres : ∀ q ∈ ainsert fecSets1 (slot, fec_set_index) recr.1,
          q.2.recovered = false →
          (fun k => if k = (slot, fec_set_index) then D.fecReconCount k + 1
            else D.fecReconCount k) q.1 = 0 := by
        intro q hq hqrec
        rcases mem_ainsert_of_nodup hnod1 hq with h | h
        · rw [h] at hqrec
          dsimp only at hqrec
          rw [hrecov] at hqrec
          exact absurd hqrec (by simp)
        · dsimp only
          rw [if_neg h.2]
          exact hpres1 q h.1 hqrec
      have hgabs : ∀ x, (∀ q ∈ ainsert fecSets1 (slot, fec_set_index) recr.1, q.1 ≠ x) →
          1 ≤ (fun k => if k = (slot, fec_set_index) then D.fecReconCount k + 1
            else D.fecReconCount k) x →
          x.1 + SLOT_EXPIRY_DISTANCE < D.highest_slot := by
        intro x habs hge
        have hks := forall_ainsert_keys habs
        dsimp only at hge
        rw [if_neg (fun he => hks.2 he.symm)] at hge
        exact hI.fecReconAbsent x (habs1 x hks.1) hge
      by_cases hrec2 : recr.2 = []
      · rw [if_pos hrec2]
        constructor <;> dsimp only
        · exact hI.slotsNodup
        · exact ainsert_keys_nodup _ _ hnod1
        · exact hI.slotLe
        · exact hI.slotYoung
        · exact hI.outcPresent
        · exact hI.outcAbsent
        · exact hI.evictedOld
        · exact hI.evictedAbsent
        · exact hgle
        · exact hgpres
        · exact hgabs
        · rw [hseenEq]
          have := hI.coverage
          omega
      · rw [if_neg hrec2]
        set sl := getOrCreateSlot metrics1 D.slots slot now with hsl
        set slot0 : SlotState := { sl.1 with last_touch_ns := now } with hs0
        set ins := insertRecoveredShreds slot0 fec_set_index recr.2 with hins
        have hinsc : ins.1.counted = storedCounted D.slots slot := by
          rw [hins, insertRecovered_counted, hs0]
          show sl.1.counted = _
          rw [hsl, getOrCreateSlot_counted]
        have hslcov : sl.2.coverage_shreds_seen = metrics1.coverage_shreds_seen ∧
            sl.2.coverage_shreds_expected = metrics1.coverage_shreds_expected := by
          rw [hsl]
          exact getOrCreateSlot_coverage metrics1 D.slots slot now
        have hins_le : ins.2 ≤ fec.num_data := by
          have h1 : ins.2 ≤ recr.2.length := by
            rw [hins]
            exact insertRecovered_count_le _ _ _
          have h2 : recr.2.length ≤ fec1.num_data := by
            rw [hrecr]
            exact reconstruct_len_le rs fec1
          omega
        by_cases hn : ins.2 > 0
        · rw [if_pos hn]
          set metrics3 : SourceMetrics := { sl.2 with
            fec_recovered_shreds := sl.2.fec_recovered_shreds + ins.2
            coverage_shreds_seen := sl.2.coverage_shreds_seen + ins.2 } with hm3
          set flushed := ins.1.flush_contiguous with hfl
          set cc := completeCheck flushed metrics3 D.outcomeCount slot with hcc
          set des := SlotState.try_deserialize de cc.1 with hdes
          set final := (if des.2 > 0 then
              ({ des.1 with txs_decoded := des.1.txs_decoded + des.2 },
               { cc.2.1 with txs_decoded := cc.2.1.txs_decoded + des.2 })
            else (des.1, cc.2.1)) with hfin
          have hflc : flushed.counted = storedCounted D.slots slot := by
            rw [hfl, flush_contiguous_counted, hinsc]
          have hfc : final.1.counted = cc.1.counted := by
            rw [hfin]
            split
            · show des.1.counted = _
              rw [hdes, try_deserialize_counted]
            · rw [hdes, try_deserialize_counted]
          have hmcov : final.2.coverage_shreds_seen = metrics3.coverage_shreds_seen ∧
              final.2.coverage_shreds_expected = metrics3.coverage_shreds_expected := by
            have h1 : cc.2.1.coverage_shreds_seen = metrics3.coverage_shreds_seen ∧
                cc.2.1.coverage_shreds_expected = metrics3.coverage_shreds_expected := by
              rw [hcc]
              exact completeCheck_coverage flushed metrics3 D.outcomeCount slot
            have h3 : final.2.coverage_shreds_seen = cc.2.1.coverage_shreds_seen ∧
                final.2.coverage_shreds_expected = cc.2.1.coverage_shreds_expected := by
              rw [hfin]
              split
              · exact ⟨rfl, rfl⟩
              · exact ⟨rfl, rfl⟩
            exact ⟨h3.1.trans h1.1, h3.2.trans h1.2⟩
          have hm3cov : metrics3.coverage_shreds_seen
              = metrics1.coverage_shreds_seen + ins.2 ∧
              metrics3.coverage_shreds_expected = metrics1.coverage_shreds_expected := by
            constructor
            · show sl.2.coverage_shreds_seen + ins.2 = _
              rw [hslcov.1]
            · show sl.2.coverage_shreds_expected = _
              rw [hslcov.2]
          by_cases hfire : (flushed.last_seen
              && decide (flushed.max_index < flushed.next_contiguous)
              && !flushed.counted) = true
          · have hccv : cc = ({ flushed with counted := true },
                { metrics3 with slots_complete := metrics3.slots_complete + 1 },
                fun x => if x = slot then D.outcomeCount x + 1 else D.outcomeCount x) := by
              rw [hcc, completeCheck, if_pos hfire]
            have hold : storedCounted D.slots slot = false := by
              rw [← hflc]
              rcases Bool.and_eq_true_iff.mp hfire with ⟨_, h2⟩
              simpa using h2
            have hcnt : final.1.counted = true := by
              rw [hfc, hccv]
            have hw := slots_writeback_fire D hI slot final.1 hs hd hold hcnt
            constructor <;> dsimp only
            · exact hw.1
            · exact ainsert_keys_nodup _ _ hnod1
            · exact hw.2.1
            · exact hw.2.2.1
            · rw [hccv]
              exact hw.2.2.2.1
            · rw [hccv]
              exact hw.2.2.2.2.1
            · exact hI.evictedOld
            · exact hw.2.2.2.2.2
            · exact hgle
            · exact hgpres
            · exact hgabs
            · rw [hmcov.1, hmcov.2, hm3cov.1, hm3cov.2, hseenEq]
              have := hI.coverage
              omega
          · have hccv : cc = (flushed, metrics3, D.outcomeCount) := by
              rw [hcc, completeCheck, if_neg hfire]
            have hcnt : final.1.counted = storedCounted D.slots slot := by
              rw [hfc, hccv, ← hflc]
            have hw := slots_writeback_simple D hI slot final.1 hs hd hcnt
            constructor <;> dsimp only
            · exact hw.1
            · exact ainsert_keys_nodup _ _ hnod1
            · exact hw.2.1
            · exact hw.2.2.1
            · rw [hccv]
              exact hw.2.2.2.1
            · rw [hccv]
              exact hw.2.2.2.2.1
            · exact hI.evictedOld
            · exact hw.2.2.2.2.2
            · exact hgle
            · exact hgpres
            · exact hgabs
            · rw [hmcov.1, hmcov.2, hm3cov.1, hm3cov.2, hseenEq]
              have := hI.coverage
              omega
        · rw [if_neg hn]
          have hw := slots_writeback_simple D hI slot ins.1 hs hd hinsc
          constructor <;> dsimp only
          · exact hw.1
          · exact ainsert_keys_nodup _ _ hnod1
          · exact hw.2.1
          · exact hw.2.2.1
          · exact hw.2.2.2.1
          · exact hw.2.2.2.2.1
          · exact hI.evictedOld
          · exact hw.2.2.2.2.2
          · exact hgle
          · exact hgpres
          · exact hgabs
          · rw [hslcov.1, hslcov.2, hseenEq]
            have := hI.coverage
            omega
    · rw [if_neg hready]
      have hfx := fec_shard_insert_facts fecSets1 hnod1 D.fecReconCount hpres1
        (slot, fec_set_index) fec fec1 hlk1 hf1rec hf1nd
      constructor <;> dsimp only
      · exact hI.slotsNodup
      · exact hfx.1
      · exact hI.slotLe
      · exact hI.slotYoung
      · exact hI.outcPresent
      · exact hI.outcAbsent
      · exact hI.evictedOld
      · exact hI.evictedAbsent
      · exact hI.fecReconLeOne
      · exact hfx.2.2.1
      · intro k habs hge
        exact hI.fecReconAbsent k (habs1 k (hfx.2.2.2 k habs)) hge
      · rw [hfx.2.1, hseenEq]
        have := hI.coverage
        omega

theorem decInv_codingStep (rs : RsOracle) (de : DeOracle) (D : Dec) (now : Nat)
    (raw : RawShred) (slot fec_set_index : Nat) (ci : CodingShredInfo) (hI : DecInv D)
    (hs : slot ≤ D.highest_slot) (hd : D.highest_slot ≤ slot + SLOT_EXPIRY_DISTANCE) :
    DecInv (codingStep rs de D now raw slot fec_set_index ci) := by
  rw [codingStep]
  by_cases hcp : ci.position ≥ ci.num_coding
  · rw [if_pos hcp]
    exact hI
  · rw [if_neg hcp]
    rcases hfound : alookup D.fec_sets (slot, fec_set_index) with _ | f
    · dsimp only
      apply decInv_codingStepRest rs de D now raw slot fec_set_index ci.num_data
        ci.num_coding _ _ _ _ hI hs hd
      · exact alookup_ainsert_self D.fec_sets (slot, fec_set_index)
          (FecSet.new ci.num_data ci.num_coding)
      · exact ainsert_keys_nodup _ _ hI.fecNodup
      · have h := fecPhi_ainsert_absent D.fec_sets (slot, fec_set_index)
          (FecSet.new ci.num_data ci.num_coding) hfound
        have hcon : fecContrib (FecSet.new ci.num_data ci.num_coding) = ci.num_data := rfl
        dsimp only
        omega
      · rfl
      · intro q hq hqrec
        rcases mem_ainsert_of_nodup hI.fecNodup hq with h | h
        · rw [h]
          dsimp only
          by_contra hne
          have hge : 1 ≤ D.fecReconCount (slot, fec_set_index) := by omega
          have habs : ∀ q ∈ D.fec_sets, q.1 ≠ (slot, fec_set_index) := by
            intro q' hq'
            exact (alookup_eq_none_iff D.fec_sets (slot, fec_set_index)).mp hfound q' hq'
          have := hI.fecReconAbsent (slot, fec_set_index) habs hge
          dsimp only at this
          omega
        · exact hI.fecReconPresent q h.1 hqrec
      · intro x habs
        exact (forall_ainsert_keys habs).1
    · dsimp only
      apply decInv_codingStepRest rs de D now raw slot fec_set_index ci.num_data
        ci.num_coding _ _ _ _ hI hs hd
      · exact hfound
      · exact hI.fecNodup
      · rfl
      · rfl
      · exact hI.fecReconPresent
      · intro x h
        exact h

/-! ### Invariant preservation: one loop iteration and the whole run -/

theorem decInv_decoderStep (rs : RsOracle) (de : DeOracle) (D : Dec)
    (inp : Nat × RawShred) (hI : DecInv D) : DecInv (decoderStep rs de D inp) := by
  rw [decoderStep]
  rcases hsi : shred_slot_index inp.2.data with _ | t
  · exact hI
  · obtain ⟨slot, shred_index, fec_set_index⟩ := t
    dsimp only
    have hI1 : DecInv (advanceHighest slot D) := decInv_advanceHighest slot D hI
    by_cases hexp : (advanceHighest slot D).highest_slot - slot > SLOT_EXPIRY_DISTANCE
    · rw [if_pos hexp]
      exact hI1
    · rw [if_neg hexp]
      have hmax := advanceHighest_highest slot D
      have hs : slot ≤ (advanceHighest slot D).highest_slot := by omega
      have hd : (advanceHighest slot D).highest_slot ≤ slot + SLOT_EXPIRY_DISTANCE := by
        omega
      rcases hch : parse_coding_header inp.2.data with _ | ci
      · exact decInv_dataStep de _ inp.1 inp.2 slot shred_index fec_set_index hI1 hs hd
      · exact decInv_codingStep rs de _ inp.1 inp.2 slot fec_set_index ci hI1 hs hd

theorem decInv_decoderRun (rs : RsOracle) (de : DeOracle) (inputs : List (Nat × RawShred))
    (D : Dec) (hI : DecInv D) : DecInv (decoderRun rs de inputs D) := by
  induction inputs generalizing D with
  | nil => exact hI
  | cons i rest ih => exact ih (decoderStep rs de D i) (decInv_decoderStep rs de D i hI)

/-! ## Lookup behaviour of the data-payload map under flushing and insertion -/

theorem flushLoop_lookup (fuel : Nat) (st : SlotState) (k : Nat)
    (hnd : (st.data_payloads.map Prod.fst).Nodup) :
    alookup (SlotState.flushLoop fuel st).data_payloads k = alookup st.data_payloads k ∨
    alookup (SlotState.flushLoop fuel st).data_payloads k = none := by
  induction fuel generalizing st with
  | zero => exact Or.inl rfl
  | succ n ih =>
    rw [SlotState.flushLoop]
    cases hl : alookup st.data_payloads st.next_contiguous with
    | none => exact Or.inl rfl
    | some pl =>
      simp only
      have hnd' : ((aremove st.data_payloads st.next_contiguous).map Prod.fst).Nodup :=
        aremove_keys_nodup _ hnd
      rcases ih { st with
          data_payloads := aremove st.data_payloads st.next_contiguous
          entry_buf := st.entry_buf ++ pl
          next_contiguous := st.next_contiguous + 1 } hnd' with h | h
      · by_cases hk : k = st.next_contiguous
        · refine Or.inr ?_
          rw [h]
          dsimp only
          rw [hk]
          exact alookup_aremove_self _ hnd
        · refine Or.inl ?_
          rw [h]
          dsimp only
          exact alookup_aremove_ne _ _ _ hk
      · exact Or.inr h

theorem flushContiguous_lookup (st : SlotState) (k : Nat)
    (hnd : (st.data_payloads.map Prod.fst).Nodup) :
    alookup st.flush_contiguous.data_payloads k = alookup st.data_payloads k ∨
    alookup st.flush_contiguous.data_payloads k = none :=
  flushLoop_lookup _ st k hnd

theorem flush_ainsert_lookup (st : SlotState) (i : Nat) (p : List Nat)
    (hnd : (st.data_payloads.map Prod.fst).Nodup) :
    alookup (SlotState.flush_contiguous
      { st with data_payloads := ainsert st.data_payloads i p }).data_payloads i = some p ∨
    alookup (SlotState.flush_contiguous
      { st with data_payloads := ainsert st.data_payloads i p }).data_payloads i = none := by
  have hnd' := ainsert_keys_nodup i p hnd
  rcases flushContiguous_lookup
      { st with data_payloads := ainsert st.data_payloads i p } i hnd' with h | h
  · refine Or.inl ?_
    rw [h]
    exact alookup_ainsert_self _ _ _
  · exact Or.inr h

/-! ## Concrete shreds and runs used by counterexamples and witnesses -/

/-- Reed–Solomon oracle that always fails (the library returns an error). -/
def rsNone : RsOracle := fun _ _ _ => none

/-- Entry-deserialization oracle that always fails. -/
def deNone : DeOracle := fun _ => none

/-- A byte buffer of length `len`, zero except at the listed offsets. -/
def mkBytes (len : Nat) (sets : List (Nat × Nat)) : List Nat :=
  sets.foldl (fun b p => b.set p.1 p.2) (List.replicate len 0)

def srcM : SourceMetrics := SourceMetrics.new "s" false

/-- A merkle coding shred for slot 0: `num_data = 2`, `num_coding = 1`,
`position = 0`, `fec_set_index = 200`. -/
def c2coding : RawShred := ⟨mkBytes 89 [(64, 0x40), (83, 2), (85, 1)], 10⟩

/-- A merkle data shred for slot 0 with the given shred index,
`fec_set_index = 200` and an empty payload. -/
def c2data (idx : Nat) : RawShred :=
  ⟨mkBytes 88 [(64, 0x90), (73, idx), (79, 200), (86, 88)], 11⟩

/-- One coding shred announcing a two-data-shred FEC set, then three data
shreds: `coverage_shreds_seen` overtakes `coverage_shreds_expected`. -/
def c2inputs : List (Nat × RawShred) :=
  [(1, c2coding), (2, c2data 100), (3, c2data 101), (4, c2data 102)]

def c2run : Dec := decoderRun rsNone deNone c2inputs (Dec.init srcM)

/-- A merkle data shred for slot 0 with the given shred index,
`fec_set_index = 200` and the given payload bytes. -/
def c3data (idx : Nat) (pl : List Nat) : RawShred :=
  ⟨mkBytes (88 + pl.length) ([(64, 0x90), (73, idx), (79, 200), (86, 88 + pl.length)]
    ++ (pl.enum.map fun p => (88 + p.1, p.2))), 12⟩

/-- Index 5 first (anchoring the contiguous cursor below 7), then index 7
with payload `[1]`. -/
def c3mid : Dec :=
  decoderRun rsNone deNone [(1, c3data 5 []), (2, c3data 7 [1])] (Dec.init srcM)

/-- The same run followed by a duplicate of index 7 carrying payload `[2]`. -/
def c3run : Dec :=
  decoderRun rsNone deNone [(1, c3data 5 []), (2, c3data 7 [1]), (3, c3data 7 [2])]
    (Dec.init srcM)

/-- A slot state already holding payload `[1]` at shred index 7, with the
contiguous cursor anchored past the flushable range. -/
def c3st : SlotState := { SlotState.new 0 with data_payloads := [(7, [1])], next_contiguous := 9 }

/-- A merkle data shred for the given slot, shred index 3. -/
def c4shred (slot : Nat) : RawShred :=
  ⟨mkBytes 88 [(64, 0x90), (65, slot), (73, 3), (79, 200), (86, 88)], 13⟩

/-- A shred in slot 0, then one in slot 40: slot 0 is evicted by
expiration. -/
def c4inputs : List (Nat × RawShred) := [(1, c4shred 0), (2, c4shred 40)]

def c4run : Dec := decoderRun rsNone deNone c4inputs (Dec.init srcM)

/-- A FEC set that is ready to recover: one data shard, one coding shard
expected, the data shard present. -/
def c6fec : FecSet := { num_data := 1, num_coding := 1, shards := [(0, [5])], recovered := false }

/-! ## C2: coverage counters -/

/-- C2 counterexample: one coding shred announces a FEC set with
`num_data = 2` (so `coverage_shreds_expected = 2`), then three distinct
data shreds of the same slot arrive (`coverage_shreds_seen = 3`).  Both
counters were incremented at least once, yet `seen ≤ expected` fails: the
decoder never ties the seen counter to the announced FEC sets. -/
theorem C2_coverage_counterexample :
    1 ≤ c2run.metrics.coverage_shreds_expected ∧
    1 ≤ c2run.metrics.coverage_shreds_seen ∧
    ¬ (c2run.metrics.coverage_shreds_seen ≤ c2run.metrics.coverage_shreds_expected) := by
  have h1 : c2run.metrics.coverage_shreds_expected = 2 := rfl
  have h2 : c2run.metrics.coverage_shreds_seen = 3 := rfl
  refine ⟨by omega, by omega, by omega⟩

/-- C2 (amended): what the decoder does guarantee, over every oracle pair
and every input sequence, starting from metrics whose coverage counters
satisfy `seen ≤ expected`: the seen counter never exceeds the expected
counter by more than the number of accepted wire data shreds
(FEC-recovered shreds are always covered by their set's `num_data`
contribution to `expected`; wire data shreds need not belong to any
announced FEC set, and each can add at most 1 to the excess). -/
theorem C2_coverage_bound (rs : RsOracle) (de : DeOracle)
    (inputs : List (Nat × RawShred)) (m : SourceMetrics)
    (hcov : m.coverage_shreds_seen ≤ m.coverage_shreds_expected) :
    (decoderRun rs de inputs (Dec.init m)).metrics.coverage_shreds_seen
      ≤ (decoderRun rs de inputs (Dec.init m)).metrics.coverage_shreds_expected
        + (decoderRun rs de inputs (Dec.init m)).wireDataCount := by
  have h := (decInv_decoderRun rs de inputs _ (decInv_init m hcov)).coverage
  omega

theorem C2_coverage_bound_witness :
    srcM.coverage_shreds_seen ≤ srcM.coverage_shreds_expected ∧
    c2run.metrics.coverage_shreds_seen
      ≤ c2run.metrics.coverage_shreds_expected + c2run.wireDataCount :=
  ⟨by decide, C2_coverage_bound rsNone deNone c2inputs srcM (by decide)⟩

/-! ## C3: duplicate data shreds -/

/-- C3 counterexample: after shreds of index 5 and index 7 (payload `[1]`),
slot 0 stores payload `[1]` at index 7; a wire duplicate of index 7 with
payload `[2]` then replaces it (`HashMap::insert`), leaving `[2]` — the
previously stored payload is not unchanged. -/
theorem C3_duplicate_insert_counterexample :
    ((alookup c3mid.slots 0).bind fun st => alookup st.data_payloads 7) = some [1] ∧
    ((alookup c3run.slots 0).bind fun st => alookup st.data_payloads 7) = some [2] ∧
    (some [2] : Option (List Nat)) ≠ some [1] := by
  refine ⟨rfl, rfl, by decide⟩

/-- C3 (amended): on the wire data-shred path the incoming payload always
wins — afterwards the map holds the new payload at that index (or the
entry was flushed into the entry buffer); only the FEC-recovery insertion
path drops duplicates silently, preserving every payload already
stored. -/
theorem C3_insert_paths :
    (∀ (st : SlotState) (i : Nat) (last : Bool) (p : List Nat),
      (st.data_payloads.map Prod.fst).Nodup →
      (alookup (dataShredUpdate st i last p).data_payloads i = some p ∨
       alookup (dataShredUpdate st i last p).data_payloads i = none)) ∧
    (∀ (st : SlotState) (fi : Nat) (l : List (Nat × List Nat)) (j : Nat) (q : List Nat),
      alookup st.data_payloads j = some q →
      alookup (insertRecoveredShreds st fi l).1.data_payloads j = some q) := by
  constructor
  · intro st i last p hnd
    rw [dataShredUpdate, SlotState.set_first_index]
    split_ifs <;> exact flush_ainsert_lookup _ i p hnd
  · intro st fi l j q hq
    induction l generalizing st with
    | nil => exact hq
    | cons hd tl ih =>
      obtain ⟨di, bytes⟩ := hd
      rw [insertRecoveredShreds]
      by_cases hpres : (alookup st.data_payloads (min (fi + di) U32_MAX)).isSome = true
      · rw [if_pos hpres]
        exact ih st hq
      · rw [if_neg hpres]
        cases hpp : parse_data_payload bytes with
        | none => exact ih st hq
        | some pr =>
          obtain ⟨last, payload⟩ := pr
          simp only
          have hgj : min (fi + di) U32_MAX ≠ j := fun he => hpres (by rw [he, hq]; rfl)
          refine ih _ ?_
          show alookup (ainsert _ (min (fi + di) U32_MAX) payload) j = some q
          rw [alookup_ainsert_ne _ _ _ _ (fun he => hgj he.symm)]
          simp only [SlotState.set_first_index]
          split_ifs <;> exact hq

theorem C3_insert_paths_witness :
    ((c3st.data_payloads.map Prod.fst).Nodup ∧
      (alookup (dataShredUpdate c3st 7 false [2]).data_payloads 7 = some [2] ∨
       alookup (dataShredUpdate c3st 7 false [2]).data_payloads 7 = none)) ∧
    (alookup c3st.data_payloads 7 = some [1] ∧
      alookup (insertRecoveredShreds c3st 0 [(7, [9])]).1.data_payloads 7 = some [1]) :=
  ⟨⟨by decide, C3_insert_paths.1 c3st 7 false [2] (by decide)⟩,
   ⟨rfl, C3_insert_paths.2 c3st 0 [(7, [9])] 7 [1] rfl⟩⟩

/-! ## C4: one outcome per slot -/

/-- C4: over any run on any input sequence (any oracles, any starting
metrics with consistent coverage counters), every slot accounts for at
most one increment across `slots_complete`/`slots_partial`/`slots_dropped`
(the ghost `outcomeCount` sums the three), and a slot evicted by
expiration accounts for exactly one. -/
theorem C4_slot_outcome_once (rs : RsOracle) (de : DeOracle)
    (inputs : List (Nat × RawShred)) (m : SourceMetrics)
    (hcov : m.coverage_shreds_seen ≤ m.coverage_shreds_expected) (s : Nat) :
    (decoderRun rs de inputs (Dec.init m)).outcomeCount s ≤ 1 ∧
    ((decoderRun rs de inputs (Dec.init m)).evicted s = true →
      (decoderRun rs de inputs (Dec.init m)).outcomeCount s = 1) := by
  have hI := decInv_decoderRun rs de inputs _ (decInv_init m hcov)
  set D := decoderRun rs de inputs (Dec.init m) with hD
  constructor
  · by_cases hp : ∀ p ∈ D.slots, p.1 ≠ s
    · have h := hI.outcAbsent s hp
      split at h <;> omega
    · push_neg at hp
      obtain ⟨p, hpmem, hps⟩ := hp
      have h := hI.outcPresent p hpmem
      rw [hps] at h
      split at h <;> omega
  · intro hev
    have habs : ∀ p ∈ D.slots, p.1 ≠ s := by
      intro p hpmem he
      have h := hI.evictedAbsent p hpmem
      rw [he, hev] at h
      exact Bool.noConfusion h
    have h := hI.outcAbsent s habs
    rw [hev] at h
    simpa using h

theorem C4_slot_outcome_once_witness :
    srcM.coverage_shreds_seen ≤ srcM.coverage_shreds_expected ∧
    c4run.evicted 0 = true ∧ c4run.outcomeCount 0 = 1 :=
  ⟨by decide, by decide,
   (C4_slot_outcome_once rsNone deNone c4inputs srcM (by decide) 0).2 (by decide)⟩

/-! ## C6: one-shot FEC reconstruction -/

/-- C6: over any run, `reconstruct` is invoked at most once per FEC-set key
(the ghost `fecReconCount`); every call to `reconstruct` — whether it finds
no missing data positions, the RS oracle fails, or it succeeds — marks the
set recovered; and `ready_to_recover` holds only when the set is not yet
recovered and the shard count has reached `num_data`. -/
theorem C6_fec_reconstruct_once (rs : RsOracle) (de : DeOracle)
    (inputs : List (Nat × RawShred)) (m : SourceMetrics)
    (hcov : m.coverage_shreds_seen ≤ m.coverage_shreds_expected) :
    (∀ k, (decoderRun rs de inputs (Dec.init m)).fecReconCount k ≤ 1) ∧
    (∀ f : FecSet, (FecSet.reconstruct rs f).1.recovered = true) ∧
    (∀ f : FecSet, f.ready_to_recover = true →
      f.recovered = false ∧ f.num_data ≤ f.shards.length) := by
  refine ⟨fun k => (decInv_decoderRun rs de inputs _ (decInv_init m hcov)).fecReconLeOne k,
    fun f => reconstruct_recovered rs f, fun f h => ?_⟩
  rw [FecSet.ready_to_recover, Bool.and_eq_true, Bool.not_eq_true'] at h
  exact ⟨h.1, of_decide_eq_true h.2⟩

theorem C6_fec_reconstruct_once_witness :
    srcM.coverage_shreds_seen ≤ srcM.coverage_shreds_expected ∧
    c2run.fecReconCount (0, 200) ≤ 1 ∧
    (FecSet.reconstruct rsNone c6fec).1.recovered = true ∧
    (c6fec.ready_to_recover = true ∧
      (c6fec.recovered = false ∧ c6fec.num_data ≤ c6fec.shards.length)) :=
  ⟨by decide,
   (C6_fec_reconstruct_once rsNone deNone c2inputs srcM (by decide)).1 (0, 200),
   (C6_fec_reconstruct_once rsNone deNone c2inputs srcM (by decide)).2.1 c6fec,
   by decide,
   (C6_fec_reconstruct_once rsNone deNone c2inputs srcM (by decide)).2.2 c6fec (by decide)⟩

/-! ## C10: bounded active-slot map -/

/-- C10: after any run, every slot in the per-slot map is within
`SLOT_EXPIRY_DISTANCE = 32` of `highest_slot`, so the map holds at most 33
entries; `MAX_ACTIVE_SLOTS = 64` names only the initial capacity hint and
is enforced nowhere. -/
theorem C10_active_slots_bounded (rs : RsOracle) (de : DeOracle)
    (inputs : List (Nat × RawShred)) (m : SourceMetrics)
    (hcov : m.coverage_shreds_seen ≤ m.coverage_shreds_expected) :
    ((decoderRun rs de inputs (Dec.init m)).slots.all fun p =>
      decide ((decoderRun rs de inputs (Dec.init m)).highest_slot
        ≤ p.1 + SLOT_EXPIRY_DISTANCE)) = true ∧
    (decoderRun rs de inputs (Dec.init m)).slots.length ≤ SLOT_EXPIRY_DISTANCE + 1 ∧
    MAX_ACTIVE_SLOTS = 64 := by
  have hI := decInv_decoderRun rs de inputs _ (decInv_init m hcov)
  set D := decoderRun rs de inputs (Dec.init m) with hD
  refine ⟨List.all_eq_true.mpr fun p hp => decide_eq_true (hI.slotYoung p hp), ?_, rfl⟩
  have hsub : (D.slots.map Prod.fst)
      ⊆ List.range' (D.highest_slot - SLOT_EXPIRY_DISTANCE) (SLOT_EXPIRY_DISTANCE + 1) := by
    intro k hk
    rcases List.mem_map.mp hk with ⟨p, hp, hpk⟩
    have h1 := hI.slotLe p hp
    have h2 := hI.slotYoung p hp
    rw [List.mem_range'_1]
    have hsd : SLOT_EXPIRY_DISTANCE = 32 := rfl
    rw [hsd] at h2 ⊢
    omega
  have hlen := (List.subperm_of_subset hI.slotsNodup hsub).length_le
  rw [List.length_range', List.length_map] at hlen
  exact hlen

theorem C10_active_slots_bounded_witness :
    srcM.coverage_shreds_seen ≤ srcM.coverage_shreds_expected ∧
    ((c4run.slots.all fun p =>
        decide (c4run.highest_slot ≤ p.1 + SLOT_EXPIRY_DISTANCE)) = true ∧
      c4run.slots.length ≤ SLOT_EXPIRY_DISTANCE + 1 ∧ MAX_ACTIVE_SLOTS = 64) :=
  ⟨by decide, C10_active_slots_bounded rsNone deNone c4inputs srcM (by decide)⟩

end Shredtop
